import Mathlib

/-!
Verification of the fasthook event relay pipeline (src/fasthook).

This file shallowly embeds the retry/forwarding/replay core of the
repository into Lean and proves (or refutes) the specification claims
about it.  Python dictionaries of JSON data are modelled by an explicit
`Json` inductive; machine strings are modelled as `List Char`; byte
strings as `List Nat` (each entry < 256); event-loop time as `ℚ`.
Numeric JSON values are modelled as integers (float round-tripping is a
property of the host language float printer, outside this model).
Python functions that catch all exceptions internally are embedded as
total functions returning explicit result values; a Python function that
can raise to its caller is embedded with an explicit error constructor
in its result type.
-/

namespace Fasthook

/-- Outcome of one call of the Delivery Client (`httpx` request) as seen
by the retry loops: either a response carrying an HTTP status code, or a
raised exception (connection error, timeout, ...). -/
inductive DeliveryOutcome where
  | response (status : Nat)
  | exn
  deriving DecidableEq, Repr

/-- Behaviour of the Delivery Client across a retry sequence: the
outcome of the attempt with the given 0-based index. -/
def DeliveryBehavior : Type := Nat → DeliveryOutcome

/-! ## Replay-path retry loop: `EventReplayer._send_event` (replay.py 225-280)

The loop body is

    for attempt in range(max_retries):
        try:
            response = await client.request(...)
            if response.status_code < 500: return
            if attempt < max_retries - 1: log warning; sleep(2**attempt)
        except Exception as e:
            if attempt < max_retries - 1: log warning; sleep(2**attempt)
            else: log error ("Failed to send event after ... attempts")

and the function returns `None` in every case (it never raises).  The
result type below records what the call did: `delivered s k` means the
`k`-th attempt received a response with status `s < 500` and the loop
returned; `exhausted k logged` means the loop ran out of attempts after
`k` attempts, with `logged = true` exactly when the final `logger.error`
line was reached (which happens only in the exception branch). -/
inductive ReplaySendResult where
  | delivered (status : Nat) (attempts : Nat)
  | exhausted (attempts : Nat) (errorLogged : Bool)
  deriving DecidableEq, Repr

/-- One step of `EventReplayer._send_event`'s `for attempt in
range(maxRetries)` loop, starting at attempt index `attempt`. -/
def sendEventFrom (client : DeliveryBehavior) (maxRetries : Nat) (attempt : Nat) :
    ReplaySendResult :=
  if attempt < maxRetries then
    match client attempt with
    | .response s =>
        if s < 500 then .delivered s (attempt + 1)
        else sendEventFrom client maxRetries (attempt + 1)
    | .exn =>
        if attempt < maxRetries - 1 then sendEventFrom client maxRetries (attempt + 1)
        else .exhausted (attempt + 1) true
  else .exhausted attempt false
  termination_by maxRetries - attempt
  decreasing_by omega

/-- `EventReplayer._send_event`: the retry loop from attempt 0 with the
hard-coded `max_retries = 3` of replay.py line 233. -/
def sendEvent (client : DeliveryBehavior) : ReplaySendResult :=
  sendEventFrom client 3 0

/-! ## Forwarding-path retry loop: `Forwarder._process_forward`
(logger.py 223-235) calling `Forwarder._forward_request` (237-260).

`_forward_request` performs the HTTP request and logs the status; it
never inspects `response.status_code` for control flow, so it raises
exactly when the client call raises.  `_process_forward` runs

    for attempt in range(self.forward_retries):
        try: await self._forward_request(event); break
        except Exception as e:
            if attempt == self.forward_retries - 1: log error
            else: await asyncio.sleep(2 ** attempt)

`forwarded s k` means attempt `k` got a response (any status `s`) and
the loop broke; `exhausted k logged` means the attempts ran out. -/
inductive ForwardResult where
  | forwarded (status : Nat) (attempts : Nat)
  | exhausted (attempts : Nat) (errorLogged : Bool)
  deriving DecidableEq, Repr

/-- One step of `Forwarder._process_forward`'s retry loop. -/
def processForwardFrom (client : DeliveryBehavior) (retries : Nat) (attempt : Nat) :
    ForwardResult :=
  if attempt < retries then
    match client attempt with
    | .response s => .forwarded s (attempt + 1)
    | .exn =>
        if attempt = retries - 1 then .exhausted (attempt + 1) true
        else processForwardFrom client retries (attempt + 1)
  else .exhausted attempt false
  termination_by retries - attempt
  decreasing_by omega

/-- `Forwarder._process_forward`: the forwarding retry loop from
attempt 0 (the semaphore acquisition around it always succeeds for the
single worker task, see the worker model below). -/
def processForward (client : DeliveryBehavior) (retries : Nat) : ForwardResult :=
  processForwardFrom client retries 0

/-- Number of delivery attempts recorded in a replay-path result. -/
def ReplaySendResult.attemptCount : ReplaySendResult → Nat
  | .delivered _ k => k
  | .exhausted k _ => k

/-- Number of delivery attempts recorded in a forwarding-path result. -/
def ForwardResult.attemptCount : ForwardResult → Nat
  | .forwarded _ k => k
  | .exhausted k _ => k

/-! ## JSON values, `json.dumps` and `json.loads`

Event Records are Python dictionaries serialized with `json.dumps` (with
its default arguments: `ensure_ascii=True`, separators `", "` / `": "`)
and re-read with `json.loads`.  Both are embedded below over an explicit
`Json` inductive.  Strings are `List Char`; numbers are modelled as
integers.  Python dictionaries are modelled as ordered association
lists; on the parsing side a repeated key keeps the first occurrence's
position and the last occurrence's value, exactly as Python `dict`
assignment does. -/

/-- Python string, modelled as a list of unicode scalar values. -/
abbrev LStr := List Char

/-- JSON value (numbers restricted to integers in this model). -/
inductive Json where
  | null
  | bool (b : Bool)
  | num (n : Int)
  | str (s : LStr)
  | arr (xs : List Json)
  | obj (fields : List (LStr × Json))

/-- Decimal digit character for a digit value 0-9. -/
def digitChar (d : Nat) : Char :=
  match d with
  | 0 => '0' | 1 => '1' | 2 => '2' | 3 => '3' | 4 => '4'
  | 5 => '5' | 6 => '6' | 7 => '7' | 8 => '8' | _ => '9'

/-- Decimal digits of `n`, most significant first, with explicit fuel
(the fuel `n + 1` always suffices, see `natDigitsAux_congr`). -/
def natDigitsAux : Nat → Nat → LStr
  | 0, _ => []
  | f + 1, n => if n < 10 then [digitChar n] else natDigitsAux f (n / 10) ++ [digitChar (n % 10)]

/-- Decimal representation of a natural number, as Python `str` prints it. -/
def natDigits (n : Nat) : LStr := natDigitsAux (n + 1) n

/-- Decimal representation of an integer, as Python `str` prints it
(and as `json.dumps` prints an `int`). -/
def intChars (i : Int) : LStr :=
  if i < 0 then '-' :: natDigits i.natAbs else natDigits i.natAbs

/-- Lowercase hexadecimal digit character for a value 0-15. -/
def hexDigitChar (d : Nat) : Char :=
  match d with
  | 0 => '0' | 1 => '1' | 2 => '2' | 3 => '3' | 4 => '4'
  | 5 => '5' | 6 => '6' | 7 => '7' | 8 => '8' | 9 => '9'
  | 10 => 'a' | 11 => 'b' | 12 => 'c' | 13 => 'd' | 14 => 'e' | _ => 'f'

/-- Four lowercase hex digits of `n % 65536`, as in a `\uXXXX` escape. -/
def hex4 (n : Nat) : LStr :=
  [hexDigitChar (n / 4096 % 16), hexDigitChar (n / 256 % 16),
   hexDigitChar (n / 16 % 16), hexDigitChar (n % 16)]

/-- Escape body of a character under `json.dumps` with `ensure_ascii=True`:
`some body` when the character is printed as a backslash escape (body is
what follows the backslash), `none` when it is printed verbatim.
Mirrors CPython's `ESCAPE_ASCII` replacement: the two-character escapes
for `"`, `\`, and the C0 controls with short names, `\uXXXX` for other
controls and all non-ASCII characters, and a surrogate pair of escapes
for characters beyond the Basic Multilingual Plane. -/
def escBody (c : Char) : Option LStr :=
  if c = '"' then some ['"']
  else if c = '\\' then some ['\\']
  else if c = '\n' then some ['n']
  else if c = '\t' then some ['t']
  else if c = '\r' then some ['r']
  else if c.toNat = 8 then some ['b']
  else if c.toNat = 12 then some ['f']
  else if c.toNat < 32 then some ('u' :: hex4 c.toNat)
  else if c.toNat < 127 then none
  else if c.toNat < 65536 then some ('u' :: hex4 c.toNat)
  else some (('u' :: hex4 (55296 + (c.toNat - 65536) / 1024)) ++
             ('\\' :: 'u' :: hex4 (56320 + (c.toNat - 65536) % 1024)))

/-- Printed form of one string character under `json.dumps`. -/
def escapeChar (c : Char) : LStr :=
  match escBody c with
  | some eb => '\\' :: eb
  | none => [c]

/-- Printed body of a JSON string under `json.dumps` (without the
surrounding quotes). -/
def escapeStr : LStr → LStr
  | [] => []
  | c :: cs => escapeChar c ++ escapeStr cs

mutual

/-- Embedding of `json.dumps` with its defaults (as used by
`Logger._save_event`, logger.py line 101): item separator `", "`, key
separator `": "`, `ensure_ascii=True`. -/
def dumpsV : Json → LStr
  | .null => 'n' :: ['u','l','l']
  | .bool true => 't' :: ['r','u','e']
  | .bool false => 'f' :: ['a','l','s','e']
  | .num i => intChars i
  | .str s => '"' :: (escapeStr s ++ ['"'])
  | .arr [] => ['[', ']']
  | .arr (x :: xs) => '[' :: (dumpsElems (x :: xs) ++ [']'])
  | .obj [] => ['\x7b', '\x7d']
  | .obj (kv :: fs) => '\x7b' :: (dumpsFields (kv :: fs) ++ ['\x7d'])

/-- Array elements joined by `json.dumps`'s item separator `", "`. -/
def dumpsElems : List Json → LStr
  | [] => []
  | [x] => dumpsV x
  | x :: y :: xs => dumpsV x ++ ',' :: ' ' :: dumpsElems (y :: xs)

/-- Object entries printed as `"key": value` joined by `", "`. -/
def dumpsFields : List (LStr × Json) → LStr
  | [] => []
  | [(k, v)] => '"' :: (escapeStr k ++ '"' :: ':' :: ' ' :: dumpsV v)
  | (k, v) :: kv :: fs =>
      ('"' :: (escapeStr k ++ '"' :: ':' :: ' ' :: dumpsV v)) ++ ',' :: ' ' :: dumpsFields (kv :: fs)

end

/-- Whitespace characters skipped by the `json` module between tokens. -/
def isWs (c : Char) : Bool := c = ' ' || c = '\t' || c = '\n' || c = '\r'

/-- ASCII decimal digit test. -/
def isDigit (c : Char) : Bool := 48 ≤ c.toNat && c.toNat ≤ 57

/-- Drop leading JSON whitespace. -/
def skipWs : LStr → LStr
  | [] => []
  | c :: r => if isWs c then skipWs r else c :: r

/-- Value of one hexadecimal digit character (either case), if any. -/
def hexVal (c : Char) : Option Nat :=
  match c with
  | '0' => .some 0 | '1' => .some 1 | '2' => .some 2 | '3' => .some 3
  | '4' => .some 4 | '5' => .some 5 | '6' => .some 6 | '7' => .some 7
  | '8' => .some 8 | '9' => .some 9
  | 'a' => .some 10 | 'b' => .some 11 | 'c' => .some 12
  | 'd' => .some 13 | 'e' => .some 14 | 'f' => .some 15
  | 'A' => .some 10 | 'B' => .some 11 | 'C' => .some 12
  | 'D' => .some 13 | 'E' => .some 14 | 'F' => .some 15
  | _ => .none

/-- Read exactly four hex digits. -/
def parseHex4 : LStr → Option (Nat × LStr)
  | c1 :: c2 :: c3 :: c4 :: r =>
    match hexVal c1, hexVal c2, hexVal c3, hexVal c4 with
    | some d1, some d2, some d3, some d4 => some (d1 * 4096 + d2 * 256 + d3 * 16 + d4, r)
    | _, _, _, _ => none
  | _ => none

/-- Read one string escape after a backslash, as `json.loads` does
(including combination of a `\uXXXX` surrogate pair into one scalar;
lone surrogates, which Python would keep as unpaired code units, are
not representable in this model and are rejected). -/
def parseEscape : LStr → Option (Char × LStr)
  | [] => none
  | e :: r =>
    if e = '"' then some ('"', r)
    else if e = '\\' then some ('\\', r)
    else if e = '/' then some ('/', r)
    else if e = 'n' then some ('\n', r)
    else if e = 't' then some ('\t', r)
    else if e = 'r' then some ('\r', r)
    else if e = 'b' then some (Char.ofNat 8, r)
    else if e = 'f' then some (Char.ofNat 12, r)
    else if e = 'u' then
      match parseHex4 r with
      | none => none
      | some (h, r1) =>
        if 55296 ≤ h ∧ h ≤ 56319 then
          match r1 with
          | '\\' :: 'u' :: r2 =>
            match parseHex4 r2 with
            | none => none
            | some (l, r3) =>
              if 56320 ≤ l ∧ l ≤ 57343 then
                some (Char.ofNat (65536 + (h - 55296) * 1024 + (l - 56320)), r3)
              else none
          | _ => none
        else if 56320 ≤ h ∧ h ≤ 57343 then none
        else some (Char.ofNat h, r1)
    else none

/-- Read a JSON string body after the opening quote: characters up to
the closing quote, resolving escapes, rejecting raw control characters
(`json.loads` is strict by default).  Fuel decreases at every consumed
character; `length + 1` fuel always suffices. -/
def parseStrBody : Nat → LStr → Option (LStr × LStr)
  | 0, _ => none
  | _ + 1, [] => none
  | f + 1, c :: r =>
    if c = '"' then some ([], r)
    else if c = '\\' then
      match parseEscape r with
      | none => none
      | some (e, r1) =>
        match parseStrBody f r1 with
        | none => none
        | some (cs, r2) => some (e :: cs, r2)
    else if c.toNat < 32 then none
    else
      match parseStrBody f r with
      | none => none
      | some (cs, r1) => some (c :: cs, r1)

/-- Longest leading run of decimal digits. -/
def takeDigits : LStr → LStr × LStr
  | [] => ([], [])
  | c :: r =>
    if isDigit c then ((takeDigits r).1.cons c, (takeDigits r).2)
    else ([], c :: r)

/-- Value of a decimal digit string (accumulator form). -/
def digitsToNatAux : Nat → LStr → Nat
  | acc, [] => acc
  | acc, c :: cs => digitsToNatAux (acc * 10 + (c.toNat - 48)) cs

/-- Read the digits of a JSON integer (after any minus sign), enforcing
the JSON grammar's no-leading-zero rule. -/
def parseNumBody (s : LStr) : Option (Nat × LStr) :=
  match takeDigits s with
  | ([], _) => none
  | (d :: ds, rest) =>
    if d = '0' ∧ ds ≠ [] then none
    else some (digitsToNatAux 0 (d :: ds), rest)

/-- Python `dict` assignment `d[k] = v` on an ordered association list:
an existing key keeps its position and takes the new value; a new key is
appended. -/
def objInsert (fs : List (LStr × Json)) (k : LStr) (v : Json) : List (LStr × Json) :=
  match fs with
  | [] => [(k, v)]
  | (k', v') :: rest => if k' = k then (k', v) :: rest else (k', v') :: objInsert rest k v

/-- Build the Python `dict` for a parsed sequence of key/value pairs. -/
def dictify (fs : List (LStr × Json)) : List (LStr × Json) :=
  fs.foldl (fun acc kv => objInsert acc kv.1 kv.2) []

mutual

/-- Embedding of the `json` module's recursive-descent value scanner.
Fuel decreases at every nested value and at every element of an array
or object, so `length + 1` fuel always suffices for an input the
grammar accepts. -/
def parseVal : Nat → LStr → Option (Json × LStr)
  | 0, _ => none
  | _ + 1, [] => none
  | f + 1, c :: r =>
    if c = 'n' then
      match r with
      | 'u' :: 'l' :: 'l' :: r1 => some (.null, r1)
      | _ => none
    else if c = 't' then
      match r with
      | 'r' :: 'u' :: 'e' :: r1 => some (.bool true, r1)
      | _ => none
    else if c = 'f' then
      match r with
      | 'a' :: 'l' :: 's' :: 'e' :: r1 => some (.bool false, r1)
      | _ => none
    else if c = '"' then
      match parseStrBody (r.length + 1) r with
      | some (cs, r1) => some (.str cs, r1)
      | none => none
    else if c = '[' then
      if (skipWs r).head? = some ']' then some (.arr [], (skipWs r).tail)
      else
        match parseElems f (skipWs r) with
        | some (vs, r1) => some (.arr vs, r1)
        | none => none
    else if c = '\x7b' then
      if (skipWs r).head? = some '\x7d' then some (.obj [], (skipWs r).tail)
      else
        match parseFields f (skipWs r) with
        | some (fs, r1) => some (.obj (dictify fs), r1)
        | none => none
    else if c = '-' then
      match parseNumBody r with
      | some (n, r1) => some (.num (-(n : Int)), r1)
      | none => none
    else if isDigit c then
      match parseNumBody (c :: r) with
      | some (n, r1) => some (.num (n : Int), r1)
      | none => none
    else none

/-- Parse one or more comma-separated array elements and the closing
bracket. -/
def parseElems : Nat → LStr → Option (List Json × LStr)
  | 0, _ => none
  | f + 1, s =>
    match parseVal f s with
    | none => none
    | some (v, r1) =>
      match skipWs r1 with
      | ']' :: r2 => some ([v], r2)
      | ',' :: r2 =>
        (match parseElems f (skipWs r2) with
         | some (vs, r3) => some (v :: vs, r3)
         | none => none)
      | _ => none

/-- Parse one or more comma-separated `"key": value` entries and the
closing brace. -/
def parseFields : Nat → LStr → Option (List (LStr × Json) × LStr)
  | 0, _ => none
  | f + 1, s =>
    match s with
    | '"' :: r =>
      (match parseStrBody (r.length + 1) r with
       | none => none
       | some (k, r1) =>
         match skipWs r1 with
         | ':' :: r2 =>
           (match parseVal f (skipWs r2) with
            | none => none
            | some (v, r3) =>
              match skipWs r3 with
              | '\x7d' :: r4 => some ([(k, v)], r4)
              | ',' :: r4 =>
                (match parseFields f (skipWs r4) with
                 | some (fs, r5) => some ((k, v) :: fs, r5)
                 | none => none)
              | _ => none)
         | _ => none)
    | _ => none

end

/-- Embedding of `json.loads`: skip surrounding whitespace, read one
value, require the input to be exhausted. -/
def jsonLoads (s : LStr) : Option Json :=
  match parseVal ((skipWs s).length + 1) (skipWs s) with
  | some (v, r) => if skipWs r = [] then some v else none
  | none => none

/-- Key list without duplicates. -/
def keysNodup : List LStr → Bool
  | [] => true
  | k :: ks => !(ks.contains k) && keysNodup ks

mutual

/-- A `Json` value that a Python object can denote: every object level
has pairwise distinct keys (Python dictionaries cannot hold duplicate
keys, so every Event Record satisfies this). -/
def wfJson : Json → Bool
  | .null => true
  | .bool _ => true
  | .num _ => true
  | .str _ => true
  | .arr xs => wfArr xs
  | .obj fs => keysNodup (fs.map Prod.fst) && wfFields fs

/-- All array elements well-formed. -/
def wfArr : List Json → Bool
  | [] => true
  | x :: xs => wfJson x && wfArr xs

/-- All object values well-formed. -/
def wfFields : List (LStr × Json) → Bool
  | [] => true
  | (_, v) :: fs => wfJson v && wfFields fs

end

/-! ## Body decoding: `utils.safe_parse_json` and `utils.safe_decode_body`

Request bodies are byte strings, modelled as `List Nat` with entries
below 256.  `bytes.decode('utf-8')` is embedded as a strict UTF-8
decoder (Python's default error mode rejects malformed sequences,
overlong encodings and surrogates). -/

/-- One UTF-8 sequence taken off the front of a byte string: the
decoded scalar value and the remaining bytes, or `none` on a malformed,
overlong or surrogate sequence. -/
def utf8DecodeOne : List Nat → Option (Nat × List Nat)
  | [] => none
  | b1 :: r =>
    if b1 < 128 then some (b1, r)
    else
      match r with
      | b2 :: r2 =>
        if 194 ≤ b1 ∧ b1 ≤ 223 ∧ 128 ≤ b2 ∧ b2 ≤ 191 then
          some ((b1 - 192) * 64 + (b2 - 128), r2)
        else
          match r2 with
          | b3 :: r3 =>
            if 224 ≤ b1 ∧ b1 ≤ 239 ∧ 128 ≤ b2 ∧ b2 ≤ 191 ∧ 128 ≤ b3 ∧ b3 ≤ 191 ∧
               (b1 = 224 → 160 ≤ b2) ∧ (b1 = 237 → b2 ≤ 159) then
              some ((b1 - 224) * 4096 + (b2 - 128) * 64 + (b3 - 128), r3)
            else
              match r3 with
              | b4 :: r4 =>
                if 240 ≤ b1 ∧ b1 ≤ 244 ∧ 128 ≤ b2 ∧ b2 ≤ 191 ∧ 128 ≤ b3 ∧ b3 ≤ 191 ∧
                   128 ≤ b4 ∧ b4 ≤ 191 ∧ (b1 = 240 → 144 ≤ b2) ∧ (b1 = 244 → b2 ≤ 143) then
                  some ((b1 - 240) * 262144 + (b2 - 128) * 4096 +
                    (b3 - 128) * 64 + (b4 - 128), r4)
                else none
              | [] => none
          | [] => none
      | [] => none

/-- Decode byte sequences one code point at a time.  The fuel is only a
structural bound: each sequence consumes at least one byte, so a fuel of
the byte count is never exhausted. -/
def utf8DecodeGo : Nat → List Nat → Option LStr
  | _, [] => some []
  | 0, _ :: _ => none
  | f + 1, bs =>
    match utf8DecodeOne bs with
    | some (n, r) =>
      match utf8DecodeGo f r with
      | some cs => some (Char.ofNat n :: cs)
      | none => none
    | none => none

/-- Strict UTF-8 decoding of a byte sequence, as Python
`bytes.decode('utf-8')`: `none` models `UnicodeDecodeError`. -/
def utf8Decode (bs : List Nat) : Option LStr := utf8DecodeGo bs.length bs

/-- Base64 alphabet character for a 6-bit value. -/
def b64Char (n : Nat) : Char :=
  if n < 26 then Char.ofNat (65 + n)
  else if n < 52 then Char.ofNat (97 + (n - 26))
  else if n < 62 then Char.ofNat (48 + (n - 52))
  else if n = 62 then '+'
  else '/'

/-- Standard base64 encoding with `=` padding, as Python
`base64.b64encode` produces. -/
def base64Encode : List Nat → LStr
  | [] => []
  | [b1] => [b64Char (b1 / 4), b64Char (b1 % 4 * 16), '=', '=']
  | [b1, b2] => [b64Char (b1 / 4), b64Char (b1 % 4 * 16 + b2 / 16), b64Char (b2 % 16 * 4), '=']
  | b1 :: b2 :: b3 :: rest =>
      [b64Char (b1 / 4), b64Char (b1 % 4 * 16 + b2 / 16),
       b64Char (b2 % 16 * 4 + b3 / 64), b64Char (b3 % 64)] ++ base64Encode rest

/-- Size cap used by `safe_decode_body` (utils.py line 65). -/
def MAX_BODY_SIZE : Nat := 10 * 1024 * 1024

/-- Embedding of `utils.safe_parse_json` (utils.py 21-47): `None` for an
empty body, for undecodable bytes and for text that is not valid JSON;
otherwise the parsed value. -/
def safe_parse_json (body : List Nat) : Option Json :=
  if body = [] then none
  else
    match utf8Decode body with
    | none => none
    | some text => jsonLoads text

/-- Embedding of `utils.safe_decode_body` (utils.py 50-80): empty string
for an empty body; a size placeholder above `MAX_BODY_SIZE`; the decoded
text when the body is UTF-8; otherwise a base64 rendering (sampled above
1024 bytes). -/
def safe_decode_body (body : List Nat) : LStr :=
  if body = [] then []
  else if MAX_BODY_SIZE < body.length then
    ("<body too large: ".toList ++ natDigits body.length ++
     " bytes, max ".toList ++ natDigits MAX_BODY_SIZE ++ ">".toList)
  else
    match utf8Decode body with
    | some s => s
    | none =>
      if 1024 < body.length then
        ("<binary data: ".toList ++ natDigits body.length ++
         " bytes, sample: ".toList ++ base64Encode (body.take 1024) ++ "...>".toList)
      else base64Encode body

/-- The `json` and `raw` fields of the Event Record built by the
inbound listener `catch_all` (server.py 63-72) from the request body. -/
structure EventBodyFields where
  json : Option Json
  raw : LStr

/-- Event Record body fields as `catch_all` computes them: both fields
are computed independently from the same body bytes. -/
def catchAllBodyFields (body : List Nat) : EventBodyFields :=
  { json := safe_parse_json body, raw := safe_decode_body body }

/-! ## Forward queue admission: `Forwarder.forward_event` (logger.py 193-209)

The queue is an `asyncio.Queue` with `maxsize = MAX_QUEUE_SIZE`; the
queue contents are modelled as the list of queued events.  `put` on a
non-full queue appends immediately; `put` on a full queue suspends until
a consumer frees a slot, so with no worker draining it never completes
and the surrounding `asyncio.wait_for(..., timeout=1.0)` cancels it
after exactly 1 second, raising `TimeoutError`; `forward_event` catches
that, logs an error, and drops the event (a cancelled `put` does not
enqueue). -/

/-- Queue capacity (logger.py line 133). -/
def MAX_QUEUE_SIZE : Nat := 1000

/-- Result of one `forward_event` call. -/
inductive EnqueueOutcome where
  | enqueued
  | droppedLogged
  deriving DecidableEq, Repr

/-- Embedding of `Forwarder.forward_event` with a configured forward
URL and no draining worker: returns the new queue contents, what
happened, and the time the call took before returning. -/
def forward_event (q : List Json) (e : Json) : List Json × EnqueueOutcome × ℚ :=
  if q.length < MAX_QUEUE_SIZE then (q ++ [e], .enqueued, 0)
  else (q, .droppedLogged, 1)

/-! ## Rate limiter: `EventReplayer._apply_rate_limit` (replay.py 176-188)

Event-loop time is modelled as `ℚ`.  The limiter state is the
`_last_request_time` field (`none` before the first call).  A call reads
the current time, sleeps the computed amount, and stores the post-sleep
time as the new last-request time. -/

/-- Sleep duration computed by `_apply_rate_limit` when called at time
`now` with stored last-request time `last`. -/
def applyRateLimitSleep (maxRps : ℚ) (last : Option ℚ) (now : ℚ) : ℚ :=
  match last with
  | none => 0
  | some t => if 0 < maxRps ∧ now - t < 1 / maxRps then 1 / maxRps - (now - t) else 0

/-- The as-fast-as-possible replay loop (replay.py 167-171): for each
event, `_apply_rate_limit` then `_replay_event`; `ds` lists each
event's processing duration (the time `_replay_event` takes, `≥ 0`).
Returns, in order, each iteration's `(sleep duration, send time)`. -/
def fastReplayLog (maxRps : ℚ) : Option ℚ → ℚ → List ℚ → List (ℚ × ℚ)
  | _, _, [] => []
  | last, now, d :: ds =>
    (applyRateLimitSleep maxRps last now, now + applyRateLimitSleep maxRps last now) ::
      fastReplayLog maxRps (some (now + applyRateLimitSleep maxRps last now))
        (now + applyRateLimitSleep maxRps last now + d) ds

/-- Send times of the as-fast-as-possible loop started with fresh
limiter state at time `now0`. -/
def fastSendTimes (maxRps : ℚ) (now0 : ℚ) (ds : List ℚ) : List ℚ :=
  (fastReplayLog maxRps none now0 ds).map Prod.snd

/-- Sleep durations of the as-fast-as-possible loop started with fresh
limiter state at time `now0`. -/
def fastSleeps (maxRps : ℚ) (now0 : ℚ) (ds : List ℚ) : List ℚ :=
  (fastReplayLog maxRps none now0 ds).map Prod.fst

/-! ## NDJSON loading: `EventReplayer._load_events` (replay.py 94-125)

The file's lines are given as a list of strings (as Python file
iteration yields them).  Each line is stripped; empty results are
skipped silently; non-empty results are parsed with `json.loads`,
appending parsed events in order and logging one warning per line that
fails to parse.  No per-line condition raises. -/

/-- Python `str.strip` whitespace (the ASCII part of `str.isspace`). -/
def isPyWs (c : Char) : Bool :=
  c = ' ' || c = '\t' || c = '\n' || c = '\r' || c.toNat = 11 || c.toNat = 12

/-- Embedding of Python `str.strip()`. -/
def stripLine (s : LStr) : LStr := (s.dropWhile isPyWs).rdropWhile isPyWs

/-- Embedding of the loop body of `_load_events`: returns the loaded
events in order and the number of skip warnings logged. -/
def loadEvents : List LStr → List Json × Nat
  | [] => ([], 0)
  | l :: ls =>
    if stripLine l = [] then loadEvents ls
    else
      match jsonLoads (stripLine l) with
      | some e => ((loadEvents ls).1.cons e, (loadEvents ls).2)
      | none => ((loadEvents ls).1, (loadEvents ls).2 + 1)

/-- One NDJSON line as `Logger._save_event` (logger.py 97-120) writes
it: `json.dumps(event) + '\n'`. -/
def saveLine (e : Json) : LStr := dumpsV e ++ ['\n']

/-! ## CLI replay entry: `cli.replay` (cli.py 188-259) and
`EventReplayer.__init__` (replay.py 25-54) -/

/-- Configuration fields stored by `EventReplayer.__init__`. -/
structure ReplayerConfig where
  rate : ℚ
  target_url : Option LStr
  fixed_delay : ℚ
  replay_once : Bool
  max_rps : ℚ

/-- Embedding of `EventReplayer.__init__`'s configuration handling: no
validation is performed; `max_rps or DEFAULT_MAX_RPS` replaces a missing
or zero (falsy) `max_rps` by the default 100. -/
def replayerInit (rate : ℚ) (target : Option LStr) (fixed_delay : ℚ)
    (replay_once : Bool) (max_rps : Option ℚ) : ReplayerConfig :=
  { rate := rate, target_url := target, fixed_delay := fixed_delay,
    replay_once := replay_once,
    max_rps :=
      match max_rps with
      | none => 100
      | some m => if m = 0 then 100 else m }

/-- Outcome of the `cli.replay` command entry before any replaying. -/
inductive ReplayCliOutcome where
  | configErrorRate
  | configErrorDelay
  | configErrorMaxRps
  | fileNotFound
  | fileNotReadable
  | runs (cfg : ReplayerConfig)

/-- Embedding of the validation sequence of `cli.replay` (cli.py
210-240): parameter checks in source order, then file checks, then the
`EventReplayer` is constructed and run. -/
def cliReplay (rate : ℚ) (once : Bool) (target : Option LStr) (delay : ℚ)
    (max_rps : ℚ) (fileExists fileReadable : Bool) : ReplayCliOutcome :=
  if rate ≤ 0 then .configErrorRate
  else if delay < 0 then .configErrorDelay
  else if max_rps ≤ 0 then .configErrorMaxRps
  else if fileExists = false then .fileNotFound
  else if fileReadable = false then .fileNotReadable
  else .runs (replayerInit rate target delay once (some max_rps))

/-! ## Forward drain loop: `Forwarder._forward_worker` (logger.py 211-221)

The worker is one task running `event = await queue.get();
await self._process_forward(event); queue.task_done()` in a loop: the
full retry sequence of an event is awaited before the next `get`.
`_process_forward` first acquires the semaphore
(`asyncio.Semaphore(forward_concurrency)`); since the worker is the
only task that ever acquires it, the acquisition succeeds immediately
whenever `forward_concurrency ≥ 1` and blocks forever when it is 0.
The trace records each dequeue, each delivery attempt, and each
completed retry sequence, in order. -/

/-- Attempt indices actually tried by `_process_forward`'s retry loop. -/
def processForwardAttemptsFrom (client : DeliveryBehavior) (retries : Nat) (attempt : Nat) :
    List Nat :=
  if attempt < retries then
    match client attempt with
    | .response _ => [attempt]
    | .exn =>
        if attempt = retries - 1 then [attempt]
        else attempt :: processForwardAttemptsFrom client retries (attempt + 1)
  else []
  termination_by retries - attempt
  decreasing_by omega

/-- Observable event in the forward worker's execution trace. -/
inductive WorkerEv where
  | deq (i : Nat)
  | attempt (i : Nat) (k : Nat)
  | done (i : Nat)
  deriving DecidableEq, Repr

/-- Execution trace of `_forward_worker` draining the queued events
`clients` (each event identified by its behaviour under delivery),
starting at queue position `i`, with semaphore capacity `c`. -/
def workerTraceFrom (c : Nat) (retries : Nat) : List DeliveryBehavior → Nat → List WorkerEv
  | [], _ => []
  | cl :: rest, i =>
    .deq i ::
      (if c = 0 then []
       else ((processForwardAttemptsFrom cl retries 0).map (.attempt i) ++ [.done i]) ++
         workerTraceFrom c retries rest (i + 1))

/-- Execution trace of the forward worker over a queue of events. -/
def workerTrace (c : Nat) (retries : Nat) (clients : List DeliveryBehavior) : List WorkerEv :=
  workerTraceFrom c retries clients 0

/-- Queue position of a dequeue trace event, if it is one. -/
def deqIdx? : WorkerEv → Option Nat
  | .deq i => some i
  | _ => none

/-- Queue position of a completed retry sequence, if the trace event
is a completion. -/
def doneIdx? : WorkerEv → Option Nat
  | .done i => some i
  | _ => none

/-- Whether a trace event is a dequeue. -/
def isDeqEv : WorkerEv → Bool
  | .deq _ => true
  | _ => false

/-- Whether a trace event is a completion. -/
def isDoneEv : WorkerEv → Bool
  | .done _ => true
  | _ => false

/-! ## Original-timing replay: `EventReplayer._replay_events` in
`replay_once` mode (replay.py 147-165), `_parse_timestamp` (190-199)
and the `replay` wrapper (72-92).

`_parse_timestamp(event.get('timestamp'))` raises unless the event is a
dictionary whose `timestamp` entry is a string accepted by
`datetime.fromisoformat` after `Z` is replaced by `+00:00`.  The
external `datetime.fromisoformat` is a parameter `fromiso` of the model
(a datetime is represented by its epoch seconds in `ℚ`). -/

/-- First value stored under a key in an association list (Python dict
lookup for dicts produced by `json.loads`). -/
def lookupField : List (LStr × Json) → LStr → Option Json
  | [], _ => none
  | (k, v) :: fs, key => if k = key then some v else lookupField fs key

/-- The string key `timestamp`. -/
def tsKey : LStr := ['t','i','m','e','s','t','a','m','p']

/-- Embedding of `timestamp.replace('Z', '+00:00')`. -/
def replaceZ : LStr → LStr
  | [] => []
  | c :: r =>
    if c = 'Z' then '+' :: '0' :: '0' :: ':' :: '0' :: '0' :: replaceZ r
    else c :: replaceZ r

/-- Embedding of `_parse_timestamp(event.get('timestamp'))`: `none`
models the raised exception (AttributeError when the event is not a
dictionary or the entry is absent or not a string, ValueError when
`fromisoformat` rejects the string). -/
def parseTimestamp (fromiso : LStr → Option ℚ) (e : Json) : Option ℚ :=
  match e with
  | .obj fs =>
    match lookupField fs tsKey with
    | some (.str s) => fromiso (replaceZ s)
    | _ => none
  | _ => none

/-- The `replay_once` branch of `_replay_events`: events are processed
in order; each event's timestamp is parsed before the event is sent; a
parse failure raises immediately (the event is not sent, no later event
is processed).  Returns the sent events in order and whether the loop
completed without raising. -/
def replayOnceGo (fromiso : LStr → Option ℚ) : Option ℚ → List Json → List Json × Bool
  | _, [] => ([], true)
  | start, e :: rest =>
    match parseTimestamp fromiso e with
    | none => ([], false)
    | some t =>
      match start with
      | none => (((replayOnceGo fromiso (some t) rest).1.cons e),
                 (replayOnceGo fromiso (some t) rest).2)
      | some _ => (((replayOnceGo fromiso (some t) rest).1.cons e),
                   (replayOnceGo fromiso (some t) rest).2)

/-- Result of one `EventReplayer.replay()` run. -/
structure ReplayRunResult where
  sends : List Json
  raised : Bool
  clientOpenedDuringRun : Bool
  clientOpenAtEnd : Bool

/-- Embedding of `EventReplayer.replay()` in `replay_once` mode: an
empty load returns after a warning; otherwise `_replay_events` runs and
any exception it raises is logged and re-raised, while the `finally`
block closes the HTTP client if one was created (the client is created
lazily by the first `_send_event`, hence only when a target is
configured and at least one event was sent). -/
def replayRunOnce (fromiso : LStr → Option ℚ) (targetSet : Bool) (events : List Json) :
    ReplayRunResult :=
  if events.isEmpty then ⟨[], false, false, false⟩
  else
    { sends := (replayOnceGo fromiso none events).1,
      raised := !(replayOnceGo fromiso none events).2,
      clientOpenedDuringRun := targetSet && !((replayOnceGo fromiso none events).1.isEmpty),
      clientOpenAtEnd := false }

/-! # Theorems -/

/-! ## Unfolding lemmas for the two retry loops -/

/-- Replay retry loop: out of attempts. -/
theorem sendEventFrom_stop (client : DeliveryBehavior) (m n : Nat) (h : ¬ n < m) :
    sendEventFrom client m n = .exhausted n false := by
  rw [sendEventFrom, if_neg h]

/-- Replay retry loop: a response with status < 500 is returned as a
delivery. -/
theorem sendEventFrom_success (client : DeliveryBehavior) (m s n : Nat) (hn : n < m)
    (hc : client n = .response s) (hs : s < 500) :
    sendEventFrom client m n = .delivered s (n + 1) := by
  rw [sendEventFrom, if_pos hn, hc]
  simp [hs]

/-- Replay retry loop: a response with status ≥ 500 moves to the next
attempt. -/
theorem sendEventFrom_retry (client : DeliveryBehavior) (m s n : Nat) (hn : n < m)
    (hc : client n = .response s) (hs : 500 ≤ s) :
    sendEventFrom client m n = sendEventFrom client m (n + 1) := by
  rw [sendEventFrom, if_pos hn, hc]
  simp [Nat.not_lt.mpr hs]

/-- Replay retry loop: an exception before the final attempt moves to
the next attempt. -/
theorem sendEventFrom_exn_mid (client : DeliveryBehavior) (m n : Nat) (hn : n < m)
    (hc : client n = .exn) (h2 : n < m - 1) :
    sendEventFrom client m n = sendEventFrom client m (n + 1) := by
  rw [sendEventFrom, if_pos hn, hc]
  simp [h2]

/-- Replay retry loop: an exception at the final attempt logs the
terminal error. -/
theorem sendEventFrom_exn_last (client : DeliveryBehavior) (m n : Nat) (hn : n < m)
    (hc : client n = .exn) (h2 : ¬ n < m - 1) :
    sendEventFrom client m n = .exhausted (n + 1) true := by
  rw [sendEventFrom, if_pos hn, hc]
  simp [h2]

/-- Forward retry loop: any response breaks the loop. -/
theorem processForwardFrom_response (client : DeliveryBehavior) (m s n : Nat) (hn : n < m)
    (hc : client n = .response s) :
    processForwardFrom client m n = .forwarded s (n + 1) := by
  rw [processForwardFrom, if_pos hn, hc]

/-- Forward retry loop: an exception before the final attempt moves to
the next attempt. -/
theorem processForwardFrom_exn_mid (client : DeliveryBehavior) (m n : Nat) (hn : n < m)
    (hc : client n = .exn) (h2 : n ≠ m - 1) :
    processForwardFrom client m n = processForwardFrom client m (n + 1) := by
  rw [processForwardFrom, if_pos hn, hc]
  simp [h2]

/-- Forward retry loop: an exception at the final attempt logs the
terminal error. -/
theorem processForwardFrom_exn_last (client : DeliveryBehavior) (m n : Nat) (hn : n < m)
    (hc : client n = .exn) (h2 : n = m - 1) :
    processForwardFrom client m n = .exhausted (n + 1) true := by
  rw [processForwardFrom, if_pos hn, hc]
  simp [h2]

/-! ## Claim C1: status-code boundary of the two retry pipelines -/

/-- Claim C1, counterexample.  The claim states that in both the
forwarding path and the replay path a response with HTTP status ≥ 500
triggers a retry until attempts are exhausted.  With a Delivery Client
that always answers HTTP 500, the forwarding retry loop
(`Forwarder._process_forward`) stops after a single attempt and treats
the 500 response as a completed forward: no retry happens. -/
theorem claim1_counterexample :
    processForward (fun _ => DeliveryOutcome.response 500) 3 =
      ForwardResult.forwarded 500 1 := by
  rw [processForward, processForwardFrom]
  norm_num

/-- Claim C1, amended: in the replay path
(`EventReplayer._send_event`) a response with status < 500 is terminal
success and a response with status ≥ 500 makes the loop proceed to the
next attempt (until attempts are exhausted); in the forwarding path
(`Forwarder._process_forward`) every response, regardless of status, is
terminal and breaks the retry loop, and only a raised exception leads
to a retry. -/
theorem claim1_amended (client : DeliveryBehavior) (s n : Nat) (hn : n < 3) :
    (client n = .response s →
      processForwardFrom client 3 n = .forwarded s (n + 1)) ∧
    (client n = .response s → s < 500 →
      sendEventFrom client 3 n = .delivered s (n + 1)) ∧
    (client n = .response s → 500 ≤ s →
      sendEventFrom client 3 n = sendEventFrom client 3 (n + 1)) ∧
    (client n = .exn → n < 2 →
      sendEventFrom client 3 n = sendEventFrom client 3 (n + 1) ∧
      processForwardFrom client 3 n = processForwardFrom client 3 (n + 1)) := by
  refine ⟨fun hc => ?_, fun hc hs => ?_, fun hc hs => ?_, fun hc h2 => ⟨?_, ?_⟩⟩
  · exact processForwardFrom_response client 3 s n hn hc
  · exact sendEventFrom_success client 3 s n hn hc hs
  · exact sendEventFrom_retry client 3 s n hn hc hs
  · exact sendEventFrom_exn_mid client 3 n hn hc (by omega)
  · exact processForwardFrom_exn_mid client 3 n hn hc (by omega)

/-- Claim C1, amended, witness at concrete clients: HTTP 503 is
terminal in the forwarding path on the first attempt, and HTTP 499 is
terminal success in the replay path on the first attempt. -/
theorem claim1_amended_witness :
    processForward (fun _ => DeliveryOutcome.response 503) 3 =
      ForwardResult.forwarded 503 1 ∧
    sendEvent (fun _ => DeliveryOutcome.response 499) =
      ReplaySendResult.delivered 499 1 :=
  ⟨(claim1_amended (fun _ => DeliveryOutcome.response 503) 503 0 (by norm_num)).1 rfl,
   ((claim1_amended (fun _ => DeliveryOutcome.response 499) 499 0 (by norm_num)).2).1
     rfl (by norm_num)⟩

/-! ## Claim C2: retry exhaustion with `max_retries = 3` -/

/-- Claim C2, counterexample.  The claim states that when the Delivery
Client always returns status ≥ 500, each pipeline performs exactly 3
delivery attempts with `max_retries = 3`.  The forwarding pipeline
performs exactly one attempt on an always-500 client (it never inspects
the status code), so its attempt count is 1, not 3. -/
theorem claim2_counterexample :
    (processForward (fun _ => DeliveryOutcome.response 500) 3).attemptCount = 1 ∧
    (processForward (fun _ => DeliveryOutcome.response 500) 3).attemptCount ≠ 3 := by
  rw [processForward, processForwardFrom]
  norm_num [ForwardResult.attemptCount]

/-- Claim C2, amended: with `max_retries = 3`, a Delivery Client that
always raises leads to exactly 3 attempts in both pipelines and a
logged terminal failure; no exception propagates to the caller (both
embedded loops are total functions returning a result value, as the
Python loops catch every exception).  A Delivery Client that always
returns status ≥ 500 leads to exactly 3 attempts in the replay pipeline
(with no terminal-failure log line) but only 1 attempt in the
forwarding pipeline, which treats the response as a completed
forward. -/
theorem claim2_amended (client : DeliveryBehavior) (st : Nat → Nat) :
    ((∀ k, client k = .exn) →
      sendEvent client = .exhausted 3 true ∧
      processForward client 3 = .exhausted 3 true) ∧
    ((∀ k, client k = .response (st k)) → (∀ k, 500 ≤ st k) →
      sendEvent client = .exhausted 3 false ∧
      processForward client 3 = .forwarded (st 0) 1) := by
  constructor
  · intro h
    constructor
    · rw [sendEvent,
        sendEventFrom_exn_mid client 3 0 (by norm_num) (h 0) (by norm_num),
        sendEventFrom_exn_mid client 3 1 (by norm_num) (h 1) (by norm_num),
        sendEventFrom_exn_last client 3 2 (by norm_num) (h 2) (by norm_num)]
    · rw [processForward,
        processForwardFrom_exn_mid client 3 0 (by norm_num) (h 0) (by norm_num),
        processForwardFrom_exn_mid client 3 1 (by norm_num) (h 1) (by norm_num),
        processForwardFrom_exn_last client 3 2 (by norm_num) (h 2) rfl]
  · intro h hs
    constructor
    · rw [sendEvent,
        sendEventFrom_retry client 3 (st 0) 0 (by norm_num) (h 0) (hs 0),
        sendEventFrom_retry client 3 (st 1) 1 (by norm_num) (h 1) (hs 1),
        sendEventFrom_retry client 3 (st 2) 2 (by norm_num) (h 2) (hs 2),
        sendEventFrom_stop client 3 3 (by norm_num)]
    · rw [processForward, processForwardFrom_response client 3 (st 0) 0 (by norm_num) (h 0)]

/-- Claim C2, amended, witness: concrete always-raising and always-500
clients. -/
theorem claim2_amended_witness :
    sendEvent (fun _ => DeliveryOutcome.exn) = ReplaySendResult.exhausted 3 true ∧
    processForward (fun _ => DeliveryOutcome.exn) 3 = ForwardResult.exhausted 3 true ∧
    sendEvent (fun _ => DeliveryOutcome.response 500) = ReplaySendResult.exhausted 3 false ∧
    processForward (fun _ => DeliveryOutcome.response 500) 3 = ForwardResult.forwarded 500 1 := by
  have h1 := (claim2_amended (fun _ => DeliveryOutcome.exn) (fun _ => 500)).1 (fun _ => rfl)
  have h2 := (claim2_amended (fun _ => DeliveryOutcome.response 500) (fun _ => 500)).2
    (fun _ => rfl) (fun _ => le_refl 500)
  exact ⟨h1.1, h1.2, h2.1, h2.2⟩

/-! ## Claim C5: enqueue on a full forward queue -/

/-- Claim C5: enqueueing onto a forward queue already holding
`MAX_QUEUE_SIZE` (1000) items with no worker draining returns after the
1-second `asyncio.wait_for` timeout rather than blocking indefinitely;
the event is dropped with an error logged and the queue still holds
exactly 1000 items. -/
theorem claim5_enqueue_full (q : List Json) (e : Json) (hq : q.length = MAX_QUEUE_SIZE) :
    forward_event q e = (q, .droppedLogged, 1) ∧
    (forward_event q e).1.length = 1000 := by
  rw [forward_event, if_neg (by rw [hq]; exact lt_irrefl _)]
  exact ⟨rfl, by rw [hq]; rfl⟩

/-- Claim C5, witness at a concrete full queue of 1000 events. -/
theorem claim5_enqueue_full_witness :
    forward_event (List.replicate 1000 Json.null) Json.null =
      (List.replicate 1000 Json.null, .droppedLogged, 1) :=
  (claim5_enqueue_full (List.replicate 1000 Json.null) Json.null
    (by rw [List.length_replicate]; rfl)).1

/-! ## Claim C7: configuration validation of the replay entry -/

/-- Claim C7: a replay configuration with a non-positive rate
multiplier, a non-positive max requests-per-second, or a negative fixed
delay is rejected by the `cli.replay` entry before the `EventReplayer`
is constructed: the outcome is one of the three configuration errors
and is never `runs`, so no replay is performed with such values. -/
theorem claim7_config_rejected (rate delay max_rps : ℚ) (once : Bool) (target : Option LStr)
    (fe fr : Bool) (h : rate ≤ 0 ∨ max_rps ≤ 0 ∨ delay < 0) :
    (cliReplay rate once target delay max_rps fe fr = .configErrorRate ∨
     cliReplay rate once target delay max_rps fe fr = .configErrorDelay ∨
     cliReplay rate once target delay max_rps fe fr = .configErrorMaxRps) ∧
    ∀ cfg, cliReplay rate once target delay max_rps fe fr ≠ .runs cfg := by
  have main : cliReplay rate once target delay max_rps fe fr = .configErrorRate ∨
      cliReplay rate once target delay max_rps fe fr = .configErrorDelay ∨
      cliReplay rate once target delay max_rps fe fr = .configErrorMaxRps := by
    by_cases h1 : rate ≤ 0
    · left; rw [cliReplay, if_pos h1]
    · by_cases h2 : delay < 0
      · right; left; rw [cliReplay, if_neg h1, if_pos h2]
      · right; right
        have h3 : max_rps ≤ 0 := by tauto
        rw [cliReplay, if_neg h1, if_neg h2, if_pos h3]
  refine ⟨main, fun cfg hc => ?_⟩
  rcases main with hm | hm | hm <;> rw [hc] at hm <;> exact ReplayCliOutcome.noConfusion hm

/-- Claim C7, witness at concrete invalid configurations. -/
theorem claim7_config_rejected_witness :
    cliReplay (-1) false none 0 100 true true = .configErrorRate ∨
    cliReplay (-1) false none 0 100 true true = .configErrorDelay ∨
    cliReplay (-1) false none 0 100 true true = .configErrorMaxRps :=
  (claim7_config_rejected (-1) 0 100 false none true true (Or.inl (by norm_num))).1

/-! ## Claim C4: rate limiting of the as-fast-as-possible replay loop -/

/-- One rate-limited admission never starts earlier than `1/R` after
the previous admission time `t`. -/
theorem rateLimit_send_ge (R t now : ℚ) (hR : 0 < R) :
    t + 1 / R ≤ now + applyRateLimitSleep R (some t) now := by
  rw [applyRateLimitSleep]
  by_cases hc : now - t < 1 / R
  · rw [if_pos ⟨hR, hc⟩]
    ring_nf
    linarith
  · rw [if_neg (by tauto)]
    linarith [not_lt.mp hc]

/-- Last element of a cons is the last element of a non-empty tail. -/
theorem getLast?_cons_of_ne {α : Type} (a : α) (l : List α) (h : l ≠ []) :
    (a :: l).getLast? = l.getLast? := by
  rcases l with _ | ⟨b, t⟩
  · exact absurd rfl h
  · exact List.getLast?_cons_cons

/-- The as-fast replay loop started right after an admission at time
`t` finishes its last admission no earlier than `t + N/R`. -/
theorem fastReplayLog_getLast_ge (R : ℚ) (hR : 0 < R) :
    ∀ (ds : List ℚ) (t now : ℚ), ∀ p,
      (fastReplayLog R (some t) now ds).getLast? = some p →
      t + ds.length / R ≤ p.2 := by
  intro ds
  induction ds with
  | nil => intro t now p hp; simp [fastReplayLog] at hp
  | cons d ds ih =>
    intro t now p hp
    rw [fastReplayLog] at hp
    rcases ds with _ | ⟨d', ds'⟩
    · rw [show fastReplayLog R (some (now + applyRateLimitSleep R (some t) now))
          (now + applyRateLimitSleep R (some t) now + d) [] = [] from rfl] at hp
      simp only [List.getLast?_singleton, Option.some.injEq] at hp
      subst hp
      simpa using rateLimit_send_ge R t now hR
    · rw [getLast?_cons_of_ne _ _ (by rw [fastReplayLog]; exact List.cons_ne_nil _ _)] at hp
      have hstep := rateLimit_send_ge R t now hR
      have hrec := ih (now + applyRateLimitSleep R (some t) now)
        (now + applyRateLimitSleep R (some t) now + d) p hp
      have hsplit : t + (((d :: d' :: ds').length : ℚ)) / R =
          (t + 1 / R) + ((d' :: ds').length : ℚ) / R := by
        push_cast [List.length_cons]
        field_simp
        ring
      rw [hsplit]
      linarith

/-- Claim C4, counterexample.  The claim states that the total time
slept by the rate limiter is at least `(N-1)/R`.  With rate limit
`R = 1` and two events whose first delivery itself takes 2 seconds, the
limiter never sleeps at all (total slept 0 < 1 = `(N-1)/R`): the
elapsed-time check already passes when the second admission is
requested. -/
theorem claim4_counterexample :
    (fastSleeps 1 0 [2, 0]).length = 2 ∧
    (fastSleeps 1 0 [2, 0]).sum = 0 ∧
    ¬ ((2 - 1 : ℚ) / 1 ≤ (fastSleeps 1 0 [2, 0]).sum) := by
  norm_num [fastSleeps, fastReplayLog, applyRateLimitSleep]

/-- Claim C4, amended: for N ≥ 1 events replayed in
as-fast-as-possible mode with rate limit R > 0, the first send is
admitted with no rate-limiter delay (its sleep is 0 and it is sent at
the loop's start time), and the wall-clock span from the first send to
the last send is at least `(N-1)/R` seconds. -/
theorem claim4_amended (R now0 : ℚ) (ds : List ℚ) (hR : 0 < R) (hds : ds ≠ []) :
    (fastSleeps R now0 ds).head? = some 0 ∧
    (fastSendTimes R now0 ds).head? = some now0 ∧
    ∀ tN, (fastSendTimes R now0 ds).getLast? = some tN →
      ((ds.length : ℚ) - 1) / R ≤ tN - now0 := by
  rcases ds with _ | ⟨d, ds⟩
  · exact absurd rfl hds
  refine ⟨?_, ?_, ?_⟩
  · rw [fastSleeps, fastReplayLog]
    simp [applyRateLimitSleep]
  · rw [fastSendTimes, fastReplayLog]
    simp [applyRateLimitSleep]
  · intro tN htN
    rw [fastSendTimes, fastReplayLog] at htN
    simp only [applyRateLimitSleep, add_zero] at htN
    rcases ds with _ | ⟨d', ds'⟩
    · rw [show fastReplayLog R (some now0) (now0 + d) [] = [] from rfl] at htN
      simp only [List.map_cons, List.map_nil, List.getLast?_singleton,
        Option.some.injEq] at htN
      subst htN
      norm_num
    · rw [List.map_cons,
        getLast?_cons_of_ne _ _
          (by rw [fastReplayLog]; simp)] at htN
      have hmap := List.getLast?_map Prod.snd (fastReplayLog R (some now0) (now0 + d) (d' :: ds'))
      rcases hx : (fastReplayLog R (some now0) (now0 + d) (d' :: ds')).getLast? with _ | p
      · rw [hx] at hmap
        rw [hmap] at htN
        rw [show Option.map (Prod.snd : ℚ × ℚ → ℚ) none = none from rfl] at htN
        exact Option.noConfusion htN
      · rw [hx] at hmap
        rw [hmap] at htN
        rw [show Option.map (Prod.snd : ℚ × ℚ → ℚ) (some p) = some p.2 from rfl] at htN
        injection htN with htN
        have hge := fastReplayLog_getLast_ge R hR (d' :: ds') now0 (now0 + d) p hx
        have hlen : ((d :: d' :: ds').length : ℚ) - 1 = ((d' :: ds').length : ℚ) := by
          push_cast [List.length_cons]
          ring
        rw [hlen, ← htN]
        linarith

/-- Claim C4, amended, witness: two events with instantaneous delivery
at rate 1: first send at time 0 with no sleep, last send at time ≥ 1. -/
theorem claim4_amended_witness :
    (fastSleeps 1 0 [0, 0]).head? = some 0 ∧
    (fastSendTimes 1 0 [0, 0]).head? = some 0 ∧
    (fastSendTimes 1 0 [0, 0]).getLast? = some 1 ∧
    ((([0, 0] : List ℚ).length : ℚ) - 1) / 1 ≤ 1 - 0 := by
  have h := claim4_amended 1 0 [0, 0] (by norm_num) (by simp)
  have hlast : (fastSendTimes 1 0 [0, 0]).getLast? = some 1 := by
    norm_num [fastSendTimes, fastReplayLog, applyRateLimitSleep]
  exact ⟨h.1, h.2.1, hlast, by simpa using h.2.2 1 hlast⟩

/-! ## Claim C6: NDJSON loading -/

/-- Parsing the empty string fails (`json.loads('')` raises). -/
theorem jsonLoads_nil : jsonLoads ([] : LStr) = none := by
  rw [jsonLoads]
  rw [show skipWs [] = [] from rfl]
  rw [show parseVal ((List.nil : LStr).length + 1) [] = none by rw [parseVal]]

/-- Stripping the empty line gives the empty line. -/
theorem stripLine_nil : stripLine ([] : LStr) = [] := rfl

/-- Claim C6, counterexample.  The claim states that every line that
fails to parse as JSON is skipped with a warning.  A blank line fails
to parse as JSON (`json.loads('')` raises), yet `_load_events` skips it
before the `json.loads` call (`if not line: continue`) and logs no
warning: loading the one-blank-line file yields no events and zero
warnings. -/
theorem claim6_counterexample :
    jsonLoads (stripLine ([] : LStr)) = none ∧ loadEvents [[]] = ([], 0) := by
  refine ⟨by rw [stripLine_nil]; exact jsonLoads_nil, ?_⟩
  rw [loadEvents, if_pos stripLine_nil, loadEvents]

/-- Claim C6, amended: loading returns, in file order, exactly the
parse results of the lines whose stripped content parses as JSON, so
the count of loaded events equals the number of syntactically valid
JSON lines; a non-blank line that fails to parse is skipped with one
warning, while a blank (whitespace-only) line is skipped silently with
no warning; no line aborts the load (the loader is a total function of
the line list). -/
theorem claim6_amended (lines : List LStr) :
    (loadEvents lines).1 = lines.filterMap (fun l => jsonLoads (stripLine l)) ∧
    (loadEvents lines).1.length =
      (lines.filter (fun l => (jsonLoads (stripLine l)).isSome)).length ∧
    (loadEvents lines).2 =
      (lines.filter (fun l => !(stripLine l).isEmpty && (jsonLoads (stripLine l)).isNone)).length := by
  have hlen : ∀ (ls' : List LStr),
      (ls'.filterMap (fun l => jsonLoads (stripLine l))).length =
        (ls'.filter (fun l => (jsonLoads (stripLine l)).isSome)).length := by
    intro ls'
    induction ls' with
    | nil => rfl
    | cons l ls ih =>
      rw [List.filterMap_cons, List.filter_cons]
      rcases hj : jsonLoads (stripLine l) with _ | e
      · rw [if_neg (by simp [hj])]
        exact ih
      · rw [if_pos (by simp [hj]), List.length_cons, List.length_cons, ih]
  have main : (loadEvents lines).1 = lines.filterMap (fun l => jsonLoads (stripLine l)) ∧
      (loadEvents lines).2 =
        (lines.filter
          (fun l => !(stripLine l).isEmpty && (jsonLoads (stripLine l)).isNone)).length := by
    induction lines with
    | nil => exact ⟨rfl, rfl⟩
    | cons l ls ih =>
      by_cases hb : stripLine l = []
      · have hload : jsonLoads (stripLine l) = none := by rw [hb]; exact jsonLoads_nil
        rw [loadEvents, if_pos hb]
        constructor
        · rw [List.filterMap_cons, hload, ih.1]
        · rw [List.filter_cons, if_neg (by simp [hb])]
          exact ih.2
      · rcases hj : jsonLoads (stripLine l) with _ | e
        · rw [loadEvents, if_neg hb, hj]
          constructor
          · rw [List.filterMap_cons, hj, ih.1]
          · rw [List.filter_cons,
              if_pos (by simp [hj, List.isEmpty_iff, hb]), List.length_cons, ih.2]
        · rw [loadEvents, if_neg hb, hj]
          constructor
          · rw [List.filterMap_cons, hj]
            dsimp only
            rw [ih.1]
          · rw [List.filter_cons, if_neg (by simp [hj])]
            exact ih.2
  exact ⟨main.1, by rw [main.1]; exact hlen lines, main.2⟩

/-! ## Claim C9: the forward drain loop is sequential -/

/-- Unfolding of the worker trace at a non-empty queue with a usable
semaphore. -/
theorem workerTraceFrom_cons (c retries : Nat) (cl : DeliveryBehavior)
    (rest : List DeliveryBehavior) (i : Nat) (hc : c ≠ 0) :
    workerTraceFrom c retries (cl :: rest) i =
      .deq i :: (((processForwardAttemptsFrom cl retries 0).map (.attempt i) ++ [.done i]) ++
        workerTraceFrom c retries rest (i + 1)) := by
  rw [workerTraceFrom, if_neg hc]

/-- Attempt markers contain no dequeue events. -/
theorem countP_attempts_deq (ks : List Nat) (i : Nat) :
    (ks.map (WorkerEv.attempt i)).countP isDeqEv = 0 :=
  List.countP_eq_zero.mpr (by
    intro a ha
    rcases List.mem_map.mp ha with ⟨k, _, rfl⟩
    simp [isDeqEv])

/-- Attempt markers contain no completion events. -/
theorem countP_attempts_done (ks : List Nat) (i : Nat) :
    (ks.map (WorkerEv.attempt i)).countP isDoneEv = 0 :=
  List.countP_eq_zero.mpr (by
    intro a ha
    rcases List.mem_map.mp ha with ⟨k, _, rfl⟩
    simp [isDoneEv])

/-- Attempt markers contribute nothing to the completion projection. -/
theorem filterMap_attempts_done (ks : List Nat) (i : Nat) :
    (ks.map (WorkerEv.attempt i)).filterMap doneIdx? = [] := by
  induction ks with
  | nil => rfl
  | cons k ks ih => simp [doneIdx?, ih]

/-- Attempt markers contribute nothing to the dequeue projection. -/
theorem filterMap_attempts_deq (ks : List Nat) (i : Nat) :
    (ks.map (WorkerEv.attempt i)).filterMap deqIdx? = [] := by
  induction ks with
  | nil => rfl
  | cons k ks ih => simp [deqIdx?, ih]

/-- The worker trace does not depend on the semaphore capacity, as
long as that capacity is non-zero. -/
theorem workerTraceFrom_capacity (c₁ c₂ retries : Nat) (h1 : c₁ ≠ 0) (h2 : c₂ ≠ 0) :
    ∀ (clients : List DeliveryBehavior) (i : Nat),
      workerTraceFrom c₁ retries clients i = workerTraceFrom c₂ retries clients i := by
  intro clients
  induction clients with
  | nil => intro i; rfl
  | cons cl rest ih =>
    intro i
    rw [workerTraceFrom_cons _ _ _ _ _ h1, workerTraceFrom_cons _ _ _ _ _ h2, ih]

/-- The completions in the worker trace are exactly the queue
positions, in queue order. -/
theorem workerTraceFrom_dones (c retries : Nat) (hc : c ≠ 0) :
    ∀ (clients : List DeliveryBehavior) (i : Nat),
      (workerTraceFrom c retries clients i).filterMap doneIdx? =
        List.range' i clients.length := by
  intro clients
  induction clients with
  | nil => intro i; rfl
  | cons cl rest ih =>
    intro i
    rw [workerTraceFrom_cons _ _ _ _ _ hc]
    rw [List.filterMap_cons]
    rw [show doneIdx? (.deq i) = none from rfl]
    rw [List.filterMap_append, List.filterMap_append]
    rw [filterMap_attempts_done]
    rw [show ([WorkerEv.done i] : List WorkerEv).filterMap doneIdx? = [i] from rfl]
    rw [ih (i + 1)]
    rw [List.length_cons, List.range'_succ i rest.length 1]
    rfl

/-- The dequeues in the worker trace are exactly the queue positions,
in queue order. -/
theorem workerTraceFrom_deqs (c retries : Nat) (hc : c ≠ 0) :
    ∀ (clients : List DeliveryBehavior) (i : Nat),
      (workerTraceFrom c retries clients i).filterMap deqIdx? =
        List.range' i clients.length := by
  intro clients
  induction clients with
  | nil => intro i; rfl
  | cons cl rest ih =>
    intro i
    rw [workerTraceFrom_cons _ _ _ _ _ hc]
    rw [List.filterMap_cons]
    rw [show deqIdx? (.deq i) = some i from rfl]
    rw [List.filterMap_append, List.filterMap_append]
    rw [filterMap_attempts_deq]
    rw [show ([WorkerEv.done i] : List WorkerEv).filterMap deqIdx? = [] from rfl]
    rw [ih (i + 1)]
    rw [List.length_cons, List.range'_succ i rest.length 1]
    rfl

/-- In every prefix of the worker trace, the number of dequeues exceeds
the number of completed retry sequences by at most one: at most one
delivery is ever in flight. -/
theorem workerTraceFrom_inflight (c retries : Nat) (hc : c ≠ 0) :
    ∀ (clients : List DeliveryBehavior) (i k : Nat),
      ((workerTraceFrom c retries clients i).take k).countP isDeqEv ≤
        ((workerTraceFrom c retries clients i).take k).countP isDoneEv + 1 := by
  intro clients
  induction clients with
  | nil =>
    intro i k
    rw [show workerTraceFrom c retries [] i = [] from rfl]
    simp
  | cons cl rest ih =>
    intro i k
    rw [workerTraceFrom_cons _ _ _ _ _ hc]
    rcases k with _ | k'
    · simp
    rw [List.take_succ_cons, List.countP_cons, List.countP_cons]
    rw [show (if isDeqEv (WorkerEv.deq i) = true then 1 else 0) = 1 from rfl,
      show (if isDoneEv (WorkerEv.deq i) = true then 1 else 0) = 0 from rfl]
    set A := (processForwardAttemptsFrom cl retries 0).map (WorkerEv.attempt i) with hA
    set T := workerTraceFrom c retries rest (i + 1) with hT
    rw [List.append_assoc, List.take_append_eq_append_take, List.countP_append,
      List.countP_append]
    have hdeqA : (A.take k').countP isDeqEv = 0 :=
      Nat.le_zero.mp (le_trans ((List.take_sublist k' A).countP_le isDeqEv)
        (le_of_eq (countP_attempts_deq _ i)))
    by_cases hk : k' ≤ A.length
    · have hz : k' - A.length = 0 := Nat.sub_eq_zero_of_le hk
      rw [hz]
      simp only [List.take_zero, List.countP_nil, hdeqA]
      omega
    · push_neg at hk
      rw [List.take_append_eq_append_take]
      have hAfull : ([WorkerEv.done i] : List WorkerEv).take (k' - A.length) =
          [WorkerEv.done i] :=
        List.take_of_length_le (by simp; omega)
      rw [hAfull, List.countP_append, List.countP_append, hdeqA]
      rw [show ([WorkerEv.done i] : List WorkerEv).countP isDeqEv = 0 from rfl,
        show ([WorkerEv.done i] : List WorkerEv).countP isDoneEv = 1 from rfl]
      have hrec := ih (i + 1) (k' - A.length - List.length [WorkerEv.done i])
      rw [← hT] at hrec
      omega

/-- Claim C9: the forward drain loop awaits the full retry sequence of
each dequeued event before dequeuing the next event.  In the worker's
execution trace the completions occur exactly in FIFO queue order, the
dequeues occur exactly in FIFO queue order, every prefix contains at
most one more dequeue than completions (at most one delivery in flight
at any time), and the trace does not depend on the configured
`forward_concurrency` capacity (for any usable capacity ≥ 1). -/
theorem claim9_worker_sequential (c retries : Nat) (clients : List DeliveryBehavior)
    (k : Nat) (hc : 1 ≤ c) :
    (workerTrace c retries clients).filterMap doneIdx? = List.range clients.length ∧
    (workerTrace c retries clients).filterMap deqIdx? = List.range clients.length ∧
    ((workerTrace c retries clients).take k).countP isDeqEv ≤
      ((workerTrace c retries clients).take k).countP isDoneEv + 1 ∧
    workerTrace c retries clients = workerTrace 1 retries clients := by
  have hc0 : c ≠ 0 := by omega
  refine ⟨?_, ?_, ?_, ?_⟩
  · rw [workerTrace, workerTraceFrom_dones c retries hc0 clients 0,
      List.range_eq_range' clients.length]
  · rw [workerTrace, workerTraceFrom_deqs c retries hc0 clients 0,
      List.range_eq_range' clients.length]
  · exact workerTraceFrom_inflight c retries hc0 clients 0 k
  · rw [workerTrace, workerTrace]
    exact workerTraceFrom_capacity c 1 retries hc0 (by omega) clients 0

/-- Claim C9, witness at a concrete queue of one event and the default
concurrency 5. -/
theorem claim9_worker_sequential_witness :
    (workerTrace 5 3 [fun _ => DeliveryOutcome.response 200]).filterMap doneIdx? =
      List.range 1 ∧
    (workerTrace 5 3 [fun _ => DeliveryOutcome.response 200]).filterMap deqIdx? =
      List.range 1 ∧
    ((workerTrace 5 3 [fun _ => DeliveryOutcome.response 200]).take 1).countP isDeqEv ≤
      ((workerTrace 5 3 [fun _ => DeliveryOutcome.response 200]).take 1).countP isDoneEv + 1 ∧
    workerTrace 5 3 [fun _ => DeliveryOutcome.response 200] =
      workerTrace 1 3 [fun _ => DeliveryOutcome.response 200] :=
  claim9_worker_sequential 5 3 [fun _ => DeliveryOutcome.response 200] 1 (by norm_num)

/-! ## Claim C10: bad timestamps abort an original-timing replay -/

/-- When the events before position `k` all carry parseable timestamps
and the event at position `k` does not, the `replay_once` loop sends
exactly the first `k` events and then raises. -/
theorem replayOnceGo_abort (fromiso : LStr → Option ℚ) :
    ∀ (events : List Json) (k : Nat) (e : Json) (start : Option ℚ),
      (events.drop k).head? = some e →
      (∀ x ∈ events.take k, (parseTimestamp fromiso x).isSome) →
      parseTimestamp fromiso e = none →
      replayOnceGo fromiso start events = (events.take k, false) := by
  intro events
  induction events with
  | nil =>
    intro k e start hsplit _ _
    rw [List.drop_nil] at hsplit
    exact Option.noConfusion hsplit
  | cons ev rest ih =>
    intro k e start hsplit hgood hbad
    rcases k with _ | k'
    · rw [List.drop_zero, List.head?_cons] at hsplit
      injection hsplit with hsplit
      subst hsplit
      rw [replayOnceGo, hbad]
      rfl
    · have hev : (parseTimestamp fromiso ev).isSome :=
        hgood ev (by rw [List.take_succ_cons]; exact List.mem_cons_self ev _)
      rcases ht : parseTimestamp fromiso ev with _ | t
      · rw [ht] at hev
        exact Bool.noConfusion hev
      have hrec := ih k' e (some t) (by simpa using hsplit)
        (fun x hx => hgood x (by rw [List.take_succ_cons]; exact List.mem_cons_of_mem ev hx))
        hbad
      rw [replayOnceGo, ht]
      cases start <;> simp only [hrec, List.take_succ_cons]

/-- Claim C10: in original-timing mode (`replay_once = True`), if some
loaded event has a `timestamp` that is absent or not a string accepted
by the ISO-8601 parser, the replay run raises (after sending exactly
the events before the first such event — the bad event is not sent and
not skipped, and no later event is processed), and the HTTP connection
resources are nevertheless not left open at the end of the run (the
`finally` block closes the client when one was created). -/
theorem claim10_bad_timestamp_aborts (fromiso : LStr → Option ℚ) (targetSet : Bool)
    (events : List Json) (k : Nat) (e : Json)
    (hsplit : (events.drop k).head? = some e)
    (hgood : ∀ x ∈ events.take k, (parseTimestamp fromiso x).isSome)
    (hbad : parseTimestamp fromiso e = none) :
    (replayRunOnce fromiso targetSet events).sends = events.take k ∧
    (replayRunOnce fromiso targetSet events).raised = true ∧
    (replayRunOnce fromiso targetSet events).clientOpenAtEnd = false := by
  have hne : events.isEmpty = false := by
    rcases events with _ | ⟨ev, rest⟩
    · rw [List.drop_nil] at hsplit
      exact Option.noConfusion hsplit
    · rfl
  have hgo := replayOnceGo_abort fromiso events k e none hsplit hgood hbad
  rw [replayRunOnce, hne]
  simp only [Bool.false_eq_true, if_false, hgo]
  exact ⟨trivial, rfl, trivial⟩

/-- Claim C10, witness: a single event with no `timestamp` entry
aborts the run with nothing sent and the client closed. -/
theorem claim10_bad_timestamp_aborts_witness :
    (replayRunOnce (fun _ => none) true [Json.obj []]).sends = [] ∧
    (replayRunOnce (fun _ => none) true [Json.obj []]).raised = true ∧
    (replayRunOnce (fun _ => none) true [Json.obj []]).clientOpenAtEnd = false := by
  have h := claim10_bad_timestamp_aborts (fun _ => none) true [Json.obj []] 0 (Json.obj [])
    rfl (by simp) rfl
  exact ⟨h.1, h.2.1, h.2.2⟩

/-! ## Round trip of the number printer -/

/-- The digit character of `d < 10` has character code `48 + d`. -/
theorem digitChar_toNat (d : Nat) (h : d < 10) : (digitChar d).toNat = 48 + d := by
  interval_cases d <;> rfl

/-- Digit characters are digits. -/
theorem isDigit_digitChar (d : Nat) (h : d < 10) : isDigit (digitChar d) = true := by
  interval_cases d <;> rfl

/-- The digit character of a non-zero digit is not `'0'`. -/
theorem digitChar_ne_zero (d : Nat) (h : d < 10) (h0 : d ≠ 0) : digitChar d ≠ '0' := by
  interval_cases d
  · exact absurd rfl h0
  all_goals decide

/-- One step of the digit-value accumulator. -/
theorem digitsToNatAux_cons (acc : Nat) (c : Char) (cs : LStr) :
    digitsToNatAux acc (c :: cs) = digitsToNatAux (acc * 10 + (c.toNat - 48)) cs := rfl

/-- The digit-value accumulator on the empty string. -/
theorem digitsToNatAux_nil (acc : Nat) : digitsToNatAux acc [] = acc := rfl

/-- Value accumulation over an appended digit string. -/
theorem digitsToNatAux_append (acc : Nat) (xs ys : LStr) :
    digitsToNatAux acc (xs ++ ys) = digitsToNatAux (digitsToNatAux acc xs) ys := by
  induction xs generalizing acc with
  | nil => rfl
  | cons c cs ih =>
    rw [List.cons_append]
    exact ih (acc * 10 + (c.toNat - 48))

/-- Specification of the fuelled digit printer: with enough fuel it
prints only digits, at least one of them, the numeric value reads back,
and the leading digit of a positive number is not `'0'`. -/
theorem natDigitsAux_spec (f : Nat) :
    ∀ n, n < f →
      (∀ c ∈ natDigitsAux f n, isDigit c = true) ∧
      natDigitsAux f n ≠ [] ∧
      (∀ acc, digitsToNatAux acc (natDigitsAux f n) =
        acc * 10 ^ (natDigitsAux f n).length + n) ∧
      (1 ≤ n → (natDigitsAux f n).head? ≠ some '0') := by
  induction f with
  | zero => intro n hn; omega
  | succ f ih =>
    intro n hn
    by_cases h10 : n < 10
    · rw [natDigitsAux, if_pos h10]
      refine ⟨?_, by simp, ?_, ?_⟩
      · intro c hc
        rw [List.mem_singleton] at hc
        subst hc
        exact isDigit_digitChar n h10
      · intro acc
        rw [digitsToNatAux_cons, digitsToNatAux_nil, digitChar_toNat n h10,
          List.length_singleton, pow_one]
        omega
      · intro h1
        simp only [List.head?_cons, ne_eq, Option.some.injEq]
        exact digitChar_ne_zero n h10 (by omega)
    · have hdiv : n / 10 < f := by omega
      have hrec := ih (n / 10) hdiv
      rw [natDigitsAux, if_neg h10]
      obtain ⟨c0, cs0, hcons⟩ : ∃ c0 cs0, natDigitsAux f (n / 10) = c0 :: cs0 := by
        rcases hx : natDigitsAux f (n / 10) with _ | ⟨c0, cs0⟩
        · exact absurd hx hrec.2.1
        · exact ⟨c0, cs0, rfl⟩
      refine ⟨?_, by simp [hcons], ?_, ?_⟩
      · intro c hc
        rcases List.mem_append.mp hc with hc | hc
        · exact hrec.1 c hc
        · rw [List.mem_singleton] at hc
          subst hc
          exact isDigit_digitChar _ (Nat.mod_lt n (by omega))
      · intro acc
        rw [digitsToNatAux_append, hrec.2.2.1 acc, digitsToNatAux_cons, digitsToNatAux_nil,
          digitChar_toNat _ (Nat.mod_lt n (by omega))]
        rw [List.length_append, List.length_singleton, pow_succ]
        have := Nat.div_add_mod n 10
        ring_nf
        omega
      · intro _
        rw [hcons, List.cons_append, List.head?_cons]
        have := hrec.2.2.2 (by omega)
        rw [hcons, List.head?_cons] at this
        exact this

/-- The decimal print of `n` reads back as `n`. -/
theorem digitsToNat_natDigits (n : Nat) : digitsToNatAux 0 (natDigits n) = n := by
  have h := (natDigitsAux_spec (n + 1) n (by omega)).2.2.1 0
  rw [natDigits, h]
  simp

/-- The decimal print of `n` consists of digits. -/
theorem natDigits_all_digit (n : Nat) : ∀ c ∈ natDigits n, isDigit c = true :=
  (natDigitsAux_spec (n + 1) n (by omega)).1

/-- The decimal print is non-empty. -/
theorem natDigits_ne_nil (n : Nat) : natDigits n ≠ [] :=
  (natDigitsAux_spec (n + 1) n (by omega)).2.1

/-- The decimal print of a positive number does not start with `'0'`. -/
theorem natDigits_head_ne_zero (n : Nat) (h : 1 ≤ n) : (natDigits n).head? ≠ some '0' :=
  (natDigitsAux_spec (n + 1) n (by omega)).2.2.2 h

/-- `takeDigits` splits a digit run followed by a non-digit exactly. -/
theorem takeDigits_append (ds rest : LStr) (hds : ∀ c ∈ ds, isDigit c = true)
    (hrest : ∀ c, rest.head? = some c → isDigit c = false) :
    takeDigits (ds ++ rest) = (ds, rest) := by
  induction ds with
  | nil =>
    rcases rest with _ | ⟨c, r⟩
    · rfl
    · rw [List.nil_append, takeDigits, hrest c rfl]
      simp
  | cons d ds ih =>
    rw [List.cons_append, takeDigits, if_pos (hds d (List.mem_cons_self d ds))]
    rw [ih (fun c hc => hds c (List.mem_cons_of_mem d hc))]

/-- `parseNumBody` reads back the decimal print of `n` exactly. -/
theorem parseNumBody_natDigits (n : Nat) (rest : LStr)
    (hrest : ∀ c, rest.head? = some c → isDigit c = false) :
    parseNumBody (natDigits n ++ rest) = some (n, rest) := by
  obtain ⟨d, ds, hcons⟩ : ∃ d ds, natDigits n = d :: ds := by
    rcases hx : natDigits n with _ | ⟨d, ds⟩
    · exact absurd hx (natDigits_ne_nil n)
    · exact ⟨d, ds, rfl⟩
  rw [parseNumBody, takeDigits_append _ _ (natDigits_all_digit n) hrest, hcons]
  dsimp only
  rw [if_neg ?hz]
  · rw [← hcons, digitsToNat_natDigits]
  case hz =>
    rintro ⟨hd0, hds⟩
    by_cases hn10 : n < 10
    · have : natDigits n = [digitChar n] := by
        rw [natDigits, natDigitsAux, if_pos hn10]
      rw [this] at hcons
      injection hcons with h1 h2
      exact hds h2.symm
    · have := natDigits_head_ne_zero n (by omega)
      rw [hcons, List.head?_cons] at this
      exact this (by rw [hd0])

/-! ## Round trip of the string escaper -/

/-- Hex digit characters read back their value. -/
theorem hexVal_hexDigitChar (d : Nat) (h : d < 16) : hexVal (hexDigitChar d) = some d := by
  interval_cases d <;> rfl

/-- A four-digit hex print reads back exactly. -/
theorem parseHex4_hex4 (n : Nat) (h : n < 65536) (r : LStr) :
    parseHex4 (hex4 n ++ r) = some (n, r) := by
  rw [hex4]
  rw [show ([hexDigitChar (n / 4096 % 16), hexDigitChar (n / 256 % 16),
      hexDigitChar (n / 16 % 16), hexDigitChar (n % 16)] ++ r) =
      hexDigitChar (n / 4096 % 16) :: hexDigitChar (n / 256 % 16) ::
      hexDigitChar (n / 16 % 16) :: hexDigitChar (n % 16) :: r from rfl]
  rw [parseHex4]
  rw [hexVal_hexDigitChar _ (Nat.mod_lt _ (by omega)),
    hexVal_hexDigitChar _ (Nat.mod_lt _ (by omega)),
    hexVal_hexDigitChar _ (Nat.mod_lt _ (by omega)),
    hexVal_hexDigitChar _ (Nat.mod_lt _ (by omega))]
  dsimp only
  congr 1
  rw [Prod.mk.injEq]
  refine ⟨?_, rfl⟩
  omega

/-- The scalar value of a character is a valid unicode scalar. -/
theorem char_toNat_valid (c : Char) :
    c.toNat < 55296 ∨ (57343 < c.toNat ∧ c.toNat < 1114112) := by
  have h := c.valid
  rcases h with h | h
  · left
    simpa [Char.toNat] using h
  · right
    simpa [Char.toNat] using h

/-- `Char.ofNat` inverts `Char.toNat` on valid scalars. -/
theorem toNat_ofNat_valid (n : Nat) (h : Nat.isValidChar n) : (Char.ofNat n).toNat = n := by
  unfold Char.ofNat
  rw [dif_pos h]
  unfold Char.ofNatAux Char.toNat
  simp [UInt32.toNat]

/-- Scalars below the surrogate range are valid. -/
theorem isValidChar_lt (n : Nat) (h : n < 55296) : Nat.isValidChar n := Or.inl h

/-- Scalars between the surrogate range and the plane bound are valid. -/
theorem isValidChar_high (n : Nat) (h1 : 57343 < n) (h2 : n < 1114112) : Nat.isValidChar n :=
  Or.inr ⟨h1, h2⟩

/-- Reading an escape that is a `\\uXXXX` sequence outside the
surrogate range yields the scalar directly. -/
theorem parseEscape_u_plain (n : Nat) (hn : n < 65536) (hns : ¬ (55296 ≤ n ∧ n ≤ 57343))
    (r : LStr) :
    parseEscape ('u' :: (hex4 n ++ r)) = some (Char.ofNat n, r) := by
  rw [parseEscape, if_neg (by decide), if_neg (by decide), if_neg (by decide),
    if_neg (by decide), if_neg (by decide), if_neg (by decide), if_neg (by decide),
    if_neg (by decide), if_pos rfl]
  rw [parseHex4_hex4 n hn r]
  dsimp only
  rw [if_neg (by omega), if_neg (by omega)]

/-- Reading a surrogate-pair escape yields the combined scalar. -/
theorem parseEscape_u_pair (hi lo : Nat) (hhi : 55296 ≤ hi ∧ hi ≤ 56319)
    (hlo : 56320 ≤ lo ∧ lo ≤ 57343) (r : LStr) :
    parseEscape ('u' :: (hex4 hi ++ ('\\' :: 'u' :: (hex4 lo ++ r)))) =
      some (Char.ofNat (65536 + (hi - 55296) * 1024 + (lo - 56320)), r) := by
  rw [parseEscape, if_neg (by decide), if_neg (by decide), if_neg (by decide),
    if_neg (by decide), if_neg (by decide), if_neg (by decide), if_neg (by decide),
    if_neg (by decide), if_pos rfl]
  rw [parseHex4_hex4 hi (by omega) _]
  dsimp only
  rw [if_pos hhi]
  split
  · next r2 heq =>
      simp only [List.cons.injEq, true_and] at heq
      subst heq
      rw [parseHex4_hex4 lo (by omega) r]
      dsimp only
      rw [if_pos hlo]
  · next hne => exact ((hne (hex4 lo ++ r) rfl)).elim

/-- A printed escape body reads back as the escaped character. -/
theorem parseEscape_escBody (c : Char) (eb : LStr) (he : escBody c = some eb) (r : LStr) :
    parseEscape (eb ++ r) = some (c, r) := by
  rw [escBody] at he
  by_cases h1 : c = '"'
  · rw [if_pos h1] at he
    injection he with he
    subst he
    subst h1
    rw [show (['"'] ++ r : LStr) = '"' :: r from rfl, parseEscape, if_pos rfl]
  rw [if_neg h1] at he
  by_cases h2 : c = '\\'
  · rw [if_pos h2] at he
    injection he with he
    subst he
    subst h2
    rw [show (['\\'] ++ r : LStr) = '\\' :: r from rfl, parseEscape,
      if_neg (by decide), if_pos rfl]
  rw [if_neg h2] at he
  by_cases h3 : c = '\n'
  · rw [if_pos h3] at he
    injection he with he
    subst he
    subst h3
    rw [show (['n'] ++ r : LStr) = 'n' :: r from rfl, parseEscape,
      if_neg (by decide), if_neg (by decide), if_neg (by decide), if_pos rfl]
  rw [if_neg h3] at he
  by_cases h4 : c = '\t'
  · rw [if_pos h4] at he
    injection he with he
    subst he
    subst h4
    rw [show (['t'] ++ r : LStr) = 't' :: r from rfl, parseEscape,
      if_neg (by decide), if_neg (by decide), if_neg (by decide), if_neg (by decide),
      if_pos rfl]
  rw [if_neg h4] at he
  by_cases h5 : c = '\r'
  · rw [if_pos h5] at he
    injection he with he
    subst he
    subst h5
    rw [show (['r'] ++ r : LStr) = 'r' :: r from rfl, parseEscape,
      if_neg (by decide), if_neg (by decide), if_neg (by decide), if_neg (by decide),
      if_neg (by decide), if_pos rfl]
  rw [if_neg h5] at he
  by_cases h6 : c.toNat = 8
  · rw [if_pos h6] at he
    injection he with he
    subst he
    rw [show (['b'] ++ r : LStr) = 'b' :: r from rfl, parseEscape,
      if_neg (by decide), if_neg (by decide), if_neg (by decide), if_neg (by decide),
      if_neg (by decide), if_neg (by decide), if_pos rfl]
    rw [← h6, Char.ofNat_toNat]
  rw [if_neg h6] at he
  by_cases h7 : c.toNat = 12
  · rw [if_pos h7] at he
    injection he with he
    subst he
    rw [show (['f'] ++ r : LStr) = 'f' :: r from rfl, parseEscape,
      if_neg (by decide), if_neg (by decide), if_neg (by decide), if_neg (by decide),
      if_neg (by decide), if_neg (by decide), if_neg (by decide), if_pos rfl]
    rw [← h7, Char.ofNat_toNat]
  rw [if_neg h7] at he
  by_cases h8 : c.toNat < 32
  · rw [if_pos h8] at he
    injection he with he
    subst he
    rw [show (('u' :: hex4 c.toNat) ++ r : LStr) = 'u' :: (hex4 c.toNat ++ r) from rfl]
    rw [parseEscape_u_plain c.toNat (by omega) (by omega) r, Char.ofNat_toNat]
  rw [if_neg h8] at he
  by_cases h9 : c.toNat < 127
  · rw [if_pos h9] at he
    exact Option.noConfusion he
  rw [if_neg h9] at he
  by_cases h10 : c.toNat < 65536
  · rw [if_pos h10] at he
    injection he with he
    subst he
    have hv := char_toNat_valid c
    rw [show (('u' :: hex4 c.toNat) ++ r : LStr) = 'u' :: (hex4 c.toNat ++ r) from rfl]
    rw [parseEscape_u_plain c.toNat (by omega) (by omega) r, Char.ofNat_toNat]
  rw [if_neg h10] at he
  · injection he with he
    subst he
    have hv := char_toNat_valid c
    have hub : c.toNat < 1114112 := by omega
    rw [show ((('u' :: hex4 (55296 + (c.toNat - 65536) / 1024)) ++
        ('\\' :: 'u' :: hex4 (56320 + (c.toNat - 65536) % 1024))) ++ r : LStr) =
        'u' :: (hex4 (55296 + (c.toNat - 65536) / 1024) ++
          ('\\' :: 'u' :: (hex4 (56320 + (c.toNat - 65536) % 1024) ++ r))) by
      simp]
    rw [parseEscape_u_pair _ _ (by omega) (by omega) r]
    rw [show 65536 + (55296 + (c.toNat - 65536) / 1024 - 55296) * 1024 +
        (56320 + (c.toNat - 65536) % 1024 - 56320) = c.toNat by omega]
    rw [Char.ofNat_toNat]

/-- A character printed verbatim by the escaper is not a quote, not a
backslash, and not a control character. -/
theorem escBody_none (c : Char) (h : escBody c = none) :
    c ≠ '"' ∧ c ≠ '\\' ∧ 32 ≤ c.toNat := by
  rw [escBody] at h
  by_cases h1 : c = '"'
  · rw [if_pos h1] at h
    exact Option.noConfusion h
  rw [if_neg h1] at h
  by_cases h2 : c = '\\'
  · rw [if_pos h2] at h
    exact Option.noConfusion h
  rw [if_neg h2] at h
  refine ⟨h1, h2, ?_⟩
  by_contra hlt
  push_neg at hlt
  by_cases h3 : c = '\n'
  · rw [if_pos h3] at h
    exact Option.noConfusion h
  rw [if_neg h3] at h
  by_cases h4 : c = '\t'
  · rw [if_pos h4] at h
    exact Option.noConfusion h
  rw [if_neg h4] at h
  by_cases h5 : c = '\r'
  · rw [if_pos h5] at h
    exact Option.noConfusion h
  rw [if_neg h5] at h
  by_cases h6 : c.toNat = 8
  · rw [if_pos h6] at h
    exact Option.noConfusion h
  rw [if_neg h6] at h
  by_cases h7 : c.toNat = 12
  · rw [if_pos h7] at h
    exact Option.noConfusion h
  rw [if_neg h7] at h
  rw [if_pos hlt] at h
  exact Option.noConfusion h

/-- Escaping never shortens a string. -/
theorem escapeStr_length_ge (s : LStr) : s.length ≤ (escapeStr s).length := by
  induction s with
  | nil => exact Nat.le_refl 0
  | cons c cs ih =>
    rw [escapeStr, List.length_append, List.length_cons]
    have : 1 ≤ (escapeChar c).length := by
      rw [escapeChar]
      rcases escBody c with _ | eb
      · exact Nat.le_refl 1
      · rw [List.length_cons]
        omega
    omega

/-- A printed string body reads back exactly, leaving the rest after
the closing quote. -/
theorem parseStrBody_escapeStr :
    ∀ (s : LStr) (f : Nat) (rest : LStr), s.length < f →
      parseStrBody f (escapeStr s ++ '"' :: rest) = some (s, rest) := by
  intro s
  induction s with
  | nil =>
    intro f rest hf
    obtain ⟨f', rfl⟩ : ∃ f', f = f' + 1 := ⟨f - 1, by omega⟩
    rw [show escapeStr [] ++ '"' :: rest = '"' :: rest from rfl]
    rw [parseStrBody, if_pos rfl]
  | cons c s' ih =>
    intro f rest hf
    obtain ⟨f', rfl⟩ : ∃ f', f = f' + 1 := ⟨f - 1, by omega⟩
    rw [show escapeStr (c :: s') = escapeChar c ++ escapeStr s' from rfl]
    rcases hes : escBody c with _ | eb
    · have hfacts := escBody_none c hes
      rw [show escapeChar c = [c] by rw [escapeChar, hes]]
      rw [show ([c] ++ escapeStr s' ++ '"' :: rest : LStr) =
          c :: (escapeStr s' ++ '"' :: rest) from rfl]
      rw [parseStrBody, if_neg hfacts.1, if_neg hfacts.2.1, if_neg (by omega)]
      rw [ih f' rest (by rw [List.length_cons] at hf; omega)]
    · rw [show escapeChar c = '\\' :: eb by rw [escapeChar, hes]]
      rw [show (('\\' :: eb) ++ escapeStr s' ++ '"' :: rest : LStr) =
          '\\' :: (eb ++ (escapeStr s' ++ '"' :: rest)) by simp]
      rw [parseStrBody, if_neg (by decide), if_pos rfl]
      rw [parseEscape_escBody c eb hes (escapeStr s' ++ '"' :: rest)]
      dsimp only
      rw [ih f' rest (by rw [List.length_cons] at hf; omega)]

/-! ## Shape facts about the printer and whitespace -/

/-- A digit character is not whitespace and not a JSON delimiter. -/
theorem isDigit_facts (c : Char) (h : isDigit c = true) :
    isWs c = false ∧ isPyWs c = false ∧ c ≠ ']' ∧ c ≠ '\x7d' ∧ c ≠ ',' := by
  have hb : 48 ≤ c.toNat ∧ c.toNat ≤ 57 := by
    simpa [isDigit, Bool.and_eq_true, decide_eq_true_eq] using h
  have hne : ∀ (d : Char), d.toNat ≠ c.toNat → c ≠ d := by
    intro d hd he
    exact hd (by rw [he])
  have hsp : c ≠ ' ' := hne ' ' (by rw [show (' ' : Char).toNat = 32 from rfl]; omega)
  have hta : c ≠ '\t' := hne '\t' (by rw [show ('\t' : Char).toNat = 9 from rfl]; omega)
  have hnl : c ≠ '\n' := hne '\n' (by rw [show ('\n' : Char).toNat = 10 from rfl]; omega)
  have hcr : c ≠ '\r' := hne '\r' (by rw [show ('\r' : Char).toNat = 13 from rfl]; omega)
  refine ⟨?_, ?_, ?_, ?_, ?_⟩
  · simp [isWs, hsp, hta, hnl, hcr]
  · simp [isPyWs, hsp, hta, hnl, hcr]
    omega
  · exact fun he => absurd (congrArg Char.toNat he)
      (by rw [show (']' : Char).toNat = 93 from rfl]; omega)
  · exact fun he => absurd (congrArg Char.toNat he)
      (by rw [show ('\x7d' : Char).toNat = 125 from rfl]; omega)
  · exact fun he => absurd (congrArg Char.toNat he)
      (by rw [show (',' : Char).toNat = 44 from rfl]; omega)

/-- `skipWs` keeps a string whose first character is not whitespace. -/
theorem skipWs_of_head (s : LStr) (h : ∀ c, s.head? = some c → isWs c = false) :
    skipWs s = s := by
  rcases s with _ | ⟨c, r⟩
  · rfl
  · rw [skipWs, if_neg (by rw [h c rfl]; exact Bool.false_ne_true)]

/-- `skipWs` consumes a leading space. -/
theorem skipWs_space (r : LStr) : skipWs (' ' :: r) = skipWs r := by
  rw [skipWs, if_pos (by decide)]

/-- The printed form of a value is non-empty and starts with a
character that is not whitespace, not a closing delimiter and not a
comma. -/
theorem dumpsV_head (v : Json) :
    ∃ c cs, dumpsV v = c :: cs ∧ isWs c = false ∧ isPyWs c = false ∧
      c ≠ ']' ∧ c ≠ '\x7d' ∧ c ≠ ',' := by
  cases v with
  | null => exact ⟨'n', _, by rw [dumpsV], by decide, by decide, by decide, by decide, by decide⟩
  | bool b =>
    cases b with
    | true => exact ⟨'t', _, by rw [dumpsV], by decide, by decide, by decide, by decide, by decide⟩
    | false =>
        exact ⟨'f', _, by rw [dumpsV], by decide, by decide, by decide, by decide, by decide⟩
  | num i =>
    rw [show dumpsV (.num i) = intChars i from by rw [dumpsV]]
    rw [intChars]
    by_cases hi : i < 0
    · rw [if_pos hi]
      exact ⟨'-', _, rfl, by decide, by decide, by decide, by decide, by decide⟩
    · rw [if_neg hi]
      obtain ⟨d, ds, hcons⟩ : ∃ d ds, natDigits i.natAbs = d :: ds := by
        rcases hx : natDigits i.natAbs with _ | ⟨d, ds⟩
        · exact absurd hx (natDigits_ne_nil _)
        · exact ⟨d, ds, rfl⟩
      have hd : isDigit d = true := natDigits_all_digit _ d (by rw [hcons]; exact List.mem_cons_self _ _)
      have hf := isDigit_facts d hd
      exact ⟨d, ds, hcons, hf.1, hf.2.1, hf.2.2.1, hf.2.2.2.1, hf.2.2.2.2⟩
  | str s =>
    exact ⟨'"', _, by rw [dumpsV], by decide, by decide, by decide, by decide, by decide⟩
  | arr xs =>
    cases xs with
    | nil => exact ⟨'[', _, by rw [dumpsV], by decide, by decide, by decide, by decide, by decide⟩
    | cons x xs =>
        exact ⟨'[', _, by rw [dumpsV], by decide, by decide, by decide, by decide, by decide⟩
  | obj fs =>
    cases fs with
    | nil => exact ⟨'\x7b', _, by rw [dumpsV], by decide, by decide, by decide, by decide, by decide⟩
    | cons kv fs =>
        exact ⟨'\x7b', _, by rw [dumpsV], by decide, by decide, by decide, by decide, by decide⟩

/-- The printed form of a value is non-empty. -/
theorem dumpsV_ne_nil (v : Json) : dumpsV v ≠ [] := by
  obtain ⟨c, cs, hcons, -⟩ := dumpsV_head v
  rw [hcons]
  exact List.cons_ne_nil c cs

/-- The printed form of a value ends with a character that is not
Python whitespace. -/
theorem dumpsV_last (v : Json) :
    ∀ c, (dumpsV v).getLast? = some c → isPyWs c = false := by
  cases v with
  | null =>
    intro c hc
    rw [show dumpsV .null = ['n','u','l','l'] from by rw [dumpsV]] at hc
    rw [show (['n','u','l','l'] : LStr).getLast? = some 'l' from rfl] at hc
    injection hc with hc
    subst hc
    decide
  | bool b =>
    intro c hc
    cases b with
    | true =>
      rw [show dumpsV (.bool true) = ['t','r','u','e'] from by rw [dumpsV]] at hc
      rw [show (['t','r','u','e'] : LStr).getLast? = some 'e' from rfl] at hc
      injection hc with hc
      subst hc
      decide
    | false =>
      rw [show dumpsV (.bool false) = ['f','a','l','s','e'] from by rw [dumpsV]] at hc
      rw [show (['f','a','l','s','e'] : LStr).getLast? = some 'e' from rfl] at hc
      injection hc with hc
      subst hc
      decide
  | num i =>
    intro c hc
    rw [show dumpsV (.num i) = intChars i from by rw [dumpsV]] at hc
    have hmem : c ∈ intChars i := List.mem_of_mem_getLast? hc
    have hdig : isDigit c = true := by
      rw [intChars] at hmem
      by_cases hi : i < 0
      · rw [if_pos hi] at hmem
        rcases List.mem_cons.mp hmem with hm | hm
        · subst hm
          -- the last character of a non-empty cons with non-empty tail
          -- cannot be the leading minus sign
          rw [intChars, if_pos hi] at hc
          obtain ⟨d, ds, hcons⟩ : ∃ d ds, natDigits i.natAbs = d :: ds := by
            rcases hx : natDigits i.natAbs with _ | ⟨d, ds⟩
            · exact absurd hx (natDigits_ne_nil _)
            · exact ⟨d, ds, rfl⟩
          rw [hcons, getLast?_cons_of_ne _ _ (List.cons_ne_nil d ds), ← hcons] at hc
          exact natDigits_all_digit _ _ (List.mem_of_mem_getLast? hc)
        · exact natDigits_all_digit _ _ hm
      · rw [if_neg hi] at hmem
        exact natDigits_all_digit _ _ hmem
    exact (isDigit_facts c hdig).2.1
  | str s =>
    intro c hc
    rw [show dumpsV (.str s) = '"' :: (escapeStr s ++ ['"']) from by rw [dumpsV]] at hc
    rw [getLast?_cons_of_ne _ _ (by simp), List.getLast?_concat] at hc
    injection hc with hc
    subst hc
    decide
  | arr xs =>
    intro c hc
    cases xs with
    | nil =>
      rw [show dumpsV (.arr []) = ['[', ']'] from by rw [dumpsV]] at hc
      rw [show (['[', ']'] : LStr).getLast? = some ']' from rfl] at hc
      injection hc with hc
      subst hc
      decide
    | cons x xs =>
      rw [show dumpsV (.arr (x :: xs)) = '[' :: (dumpsElems (x :: xs) ++ [']'])
          from by rw [dumpsV]] at hc
      rw [getLast?_cons_of_ne _ _ (by simp), List.getLast?_concat] at hc
      injection hc with hc
      subst hc
      decide
  | obj fs =>
    intro c hc
    cases fs with
    | nil =>
      rw [show dumpsV (.obj []) = ['\x7b', '\x7d'] from by rw [dumpsV]] at hc
      rw [show (['\x7b', '\x7d'] : LStr).getLast? = some '\x7d' from rfl] at hc
      injection hc with hc
      subst hc
      decide
    | cons kv fs =>
      rw [show dumpsV (.obj (kv :: fs)) = '\x7b' :: (dumpsFields (kv :: fs) ++ ['\x7d'])
          from by rw [dumpsV]] at hc
      rw [getLast?_cons_of_ne _ _ (by simp), List.getLast?_concat] at hc
      injection hc with hc
      subst hc
      decide

/-! ## Step equations of the value scanner -/

/-- Scanner step: `null`. -/
theorem parseVal_null (f : Nat) (r : LStr) :
    parseVal (f + 1) ('n' :: 'u' :: 'l' :: 'l' :: r) = some (.null, r) := by
  rw [parseVal.eq_def]
  dsimp only
  rw [if_pos rfl]
  split
  · next r1 heq =>
      simp only [List.cons.injEq, true_and] at heq
      simp [heq]
  · next hne => exact absurd (hne r rfl) (by simp)

/-- Scanner step: `true`. -/
theorem parseVal_true (f : Nat) (r : LStr) :
    parseVal (f + 1) ('t' :: 'r' :: 'u' :: 'e' :: r) = some (.bool true, r) := by
  rw [parseVal.eq_def]
  dsimp only
  rw [if_neg (by decide), if_pos rfl]
  split
  · next r1 heq =>
      simp only [List.cons.injEq, true_and] at heq
      simp [heq]
  · next hne => exact absurd (hne r rfl) (by simp)

/-- Scanner step: `false`. -/
theorem parseVal_false (f : Nat) (r : LStr) :
    parseVal (f + 1) ('f' :: 'a' :: 'l' :: 's' :: 'e' :: r) = some (.bool false, r) := by
  rw [parseVal.eq_def]
  dsimp only
  rw [if_neg (by decide), if_neg (by decide), if_pos rfl]
  split
  · next r1 heq =>
      simp only [List.cons.injEq, true_and] at heq
      simp [heq]
  · next hne => exact absurd (hne r rfl) (by simp)

/-- Scanner step: a string. -/
theorem parseVal_str (f : Nat) (r : LStr) :
    parseVal (f + 1) ('"' :: r) =
      match parseStrBody (r.length + 1) r with
      | some (cs, r1) => some (.str cs, r1)
      | none => none := by
  rw [parseVal.eq_def]
  dsimp only
  rw [if_neg (by decide), if_neg (by decide), if_neg (by decide), if_pos rfl]

/-- Scanner step: an array opener. -/
theorem parseVal_arr (f : Nat) (r : LStr) :
    parseVal (f + 1) ('[' :: r) =
      (if (skipWs r).head? = some ']' then some (.arr [], (skipWs r).tail)
       else
        match parseElems f (skipWs r) with
        | some (vs, r1) => some (.arr vs, r1)
        | none => none) := by
  rw [parseVal.eq_def]
  dsimp only
  rw [if_neg (by decide), if_neg (by decide), if_neg (by decide), if_neg (by decide),
    if_pos rfl]

/-- Scanner step: an object opener. -/
theorem parseVal_obj (f : Nat) (r : LStr) :
    parseVal (f + 1) ('\x7b' :: r) =
      (if (skipWs r).head? = some '\x7d' then some (.obj [], (skipWs r).tail)
       else
        match parseFields f (skipWs r) with
        | some (fs, r1) => some (.obj (dictify fs), r1)
        | none => none) := by
  rw [parseVal.eq_def]
  dsimp only
  rw [if_neg (by decide), if_neg (by decide), if_neg (by decide), if_neg (by decide),
    if_neg (by decide), if_pos rfl]

/-- Scanner step: a negative number. -/
theorem parseVal_neg (f : Nat) (r : LStr) :
    parseVal (f + 1) ('-' :: r) =
      match parseNumBody r with
      | some (n, r1) => some (.num (-(n : Int)), r1)
      | none => none := by
  rw [parseVal.eq_def]
  dsimp only
  rw [if_neg (by decide), if_neg (by decide), if_neg (by decide), if_neg (by decide),
    if_neg (by decide), if_neg (by decide), if_pos rfl]

/-- Scanner step: a digit. -/
theorem parseVal_digit (f : Nat) (c : Char) (r : LStr) (h : isDigit c = true) :
    parseVal (f + 1) (c :: r) =
      match parseNumBody (c :: r) with
      | some (n, r1) => some (.num (n : Int), r1)
      | none => none := by
  have hb : 48 ≤ c.toNat ∧ c.toNat ≤ 57 := by
    simpa [isDigit, Bool.and_eq_true, decide_eq_true_eq] using h
  have hne : ∀ (d : Char), d.toNat ≠ c.toNat → ¬ (c = d) := by
    intro d hd he
    exact hd (by rw [he])
  rw [parseVal.eq_def]
  dsimp only
  rw [if_neg (hne 'n' (by rw [show ('n' : Char).toNat = 110 from rfl]; omega)),
    if_neg (hne 't' (by rw [show ('t' : Char).toNat = 116 from rfl]; omega)),
    if_neg (hne 'f' (by rw [show ('f' : Char).toNat = 102 from rfl]; omega)),
    if_neg (hne '"' (by rw [show ('"' : Char).toNat = 34 from rfl]; omega)),
    if_neg (hne '[' (by rw [show ('[' : Char).toNat = 91 from rfl]; omega)),
    if_neg (hne '\x7b' (by rw [show ('\x7b' : Char).toNat = 123 from rfl]; omega)),
    if_neg (hne '-' (by rw [show ('-' : Char).toNat = 45 from rfl]; omega)),
    if_pos h]

/-- Scanner step: one element followed by more elements. -/
theorem parseElems_cons (f : Nat) (s : LStr) :
    parseElems (f + 1) s =
      match parseVal f s with
      | none => none
      | some (v, r1) =>
        match skipWs r1 with
        | ']' :: r2 => some ([v], r2)
        | ',' :: r2 =>
          (match parseElems f (skipWs r2) with
           | some (vs, r3) => some (v :: vs, r3)
           | none => none)
        | _ => none := by
  rw [parseElems.eq_def]

/-- Scanner step: one object entry followed by more entries. -/
theorem parseFields_cons (f : Nat) (s : LStr) :
    parseFields (f + 1) s =
      match s with
      | '"' :: r =>
        (match parseStrBody (r.length + 1) r with
         | none => none
         | some (k, r1) =>
           match skipWs r1 with
           | ':' :: r2 =>
             (match parseVal f (skipWs r2) with
              | none => none
              | some (v, r3) =>
                match skipWs r3 with
                | '\x7d' :: r4 => some ([(k, v)], r4)
                | ',' :: r4 =>
                  (match parseFields f (skipWs r4) with
                   | some (fs, r5) => some ((k, v) :: fs, r5)
                   | none => none)
                | _ => none)
           | _ => none)
      | _ => none := by
  rw [parseFields.eq_def]

/-! ## Python dict building on distinct keys -/

/-- Inserting a fresh key appends. -/
theorem objInsert_fresh (fs : List (LStr × Json)) (k : LStr) (v : Json)
    (h : k ∉ fs.map Prod.fst) : objInsert fs k v = fs ++ [(k, v)] := by
  induction fs with
  | nil => rfl
  | cons kv rest ih =>
    rw [objInsert]
    rw [if_neg (by
      intro he
      exact h (by rw [List.map_cons, he]; exact List.mem_cons_self _ _))]
    rw [ih (fun hm => h (by rw [List.map_cons]; exact List.mem_cons_of_mem _ hm))]
    simp

/-- Folding dict insertion over entries with pairwise distinct keys,
none of which occurs in the accumulator, appends them all. -/
theorem dictify_fold (fs : List (LStr × Json)) :
    ∀ (acc : List (LStr × Json)), keysNodup (fs.map Prod.fst) = true →
      (∀ k ∈ fs.map Prod.fst, k ∉ acc.map Prod.fst) →
      fs.foldl (fun a kv => objInsert a kv.1 kv.2) acc = acc ++ fs := by
  induction fs with
  | nil => intro acc _ _; rw [List.foldl_nil, List.append_nil]
  | cons kv rest ih =>
    intro acc hnd hdisj
    rw [List.map_cons, keysNodup, Bool.and_eq_true] at hnd
    have hfresh : ∀ k ∈ rest.map Prod.fst, k ∉ (acc ++ [(kv.1, kv.2)]).map Prod.fst := by
      intro k hk
      rw [List.map_append, List.mem_append]
      rintro (hmem | hmem)
      · exact hdisj k (by rw [List.map_cons]; exact List.mem_cons_of_mem _ hk) hmem
      · simp only [List.map_cons, List.map_nil, List.mem_singleton] at hmem
        subst hmem
        have hcont : (rest.map Prod.fst).contains kv.1 = false := by
          have h1 := hnd.1
          cases hb : (rest.map Prod.fst).contains kv.1
          · rfl
          · rw [hb] at h1
            exact absurd h1 (by decide)
        rw [List.contains_eq_any_beq] at hcont
        have : kv.1 ∈ rest.map Prod.fst := hk
        rw [List.any_eq_false] at hcont
        exact absurd (by simp : (kv.1 == kv.1) = true) (by simpa using hcont kv.1 this)
    rw [List.foldl_cons]
    rw [objInsert_fresh acc kv.1 kv.2
      (hdisj kv.1 (by rw [List.map_cons]; exact List.mem_cons_self _ _))]
    rw [ih (acc ++ [(kv.1, kv.2)]) hnd.2 hfresh]
    simp

/-- On entries with pairwise distinct keys, the parsed dict is the
entry list itself. -/
theorem dictify_nodup (fs : List (LStr × Json)) (h : keysNodup (fs.map Prod.fst) = true) :
    dictify fs = fs := by
  rw [dictify, dictify_fold fs [] h
    (by intro k _ hm; rw [List.map_nil] at hm; exact List.not_mem_nil k hm),
    List.nil_append]

/-- Element scanner: a value followed directly by the closing bracket
finishes the element list. -/
theorem parseElems_close (f : Nat) (s : LStr) (v : Json) (r2 : LStr)
    (hval : parseVal f s = some (v, ']' :: r2)) :
    parseElems (f + 1) s = some ([v], r2) := by
  rw [parseElems_cons f, hval]
  dsimp only
  rw [skipWs_of_head _ (by intro c hc; injection hc with hc; subst hc; decide)]
  split
  · next r' heq =>
      simp only [List.cons.injEq, true_and] at heq
      simp [heq]
  · next r' heq =>
      injection heq with h1 _
      exact absurd h1 (by decide)
  · next hne1 hne2 => exact absurd (hne1 r2 rfl) (by simp)

/-- Element scanner: a value followed by a comma continues with the
remaining elements. -/
theorem parseElems_comma (f : Nat) (s : LStr) (v : Json) (r2 : LStr) (vs : List Json)
    (r3 : LStr) (hval : parseVal f s = some (v, ',' :: r2))
    (hrec : parseElems f (skipWs r2) = some (vs, r3)) :
    parseElems (f + 1) s = some (v :: vs, r3) := by
  rw [parseElems_cons f, hval]
  dsimp only
  rw [skipWs_of_head _ (by intro c hc; injection hc with hc; subst hc; decide)]
  split
  · next r' heq =>
      injection heq with h1 _
      exact absurd h1 (by decide)
  · next r' heq =>
      simp only [List.cons.injEq, true_and] at heq
      subst heq
      rw [hrec]
  · next hne1 hne2 => exact absurd (hne2 r2 rfl) (by simp)

/-- Entry scanner: a key/value pair followed directly by the closing
brace finishes the entry list. -/
theorem parseFields_close (f : Nat) (r : LStr) (k : LStr) (v : Json) (r2 r4 : LStr)
    (hkey : parseStrBody (r.length + 1) r = some (k, ':' :: r2))
    (hval : parseVal f (skipWs r2) = some (v, '\x7d' :: r4)) :
    parseFields (f + 1) ('"' :: r) = some ([(k, v)], r4) := by
  rw [parseFields_cons f]
  split
  · next r' heq =>
      simp only [List.cons.injEq, true_and] at heq
      subst heq
      rw [hkey]
      dsimp only
      rw [skipWs_of_head _ (by intro c hc; injection hc with hc; subst hc; decide)]
      split
      · next r'' heq2 =>
          simp only [List.cons.injEq, true_and] at heq2
          subst heq2
          rw [hval]
          dsimp only
          rw [skipWs_of_head _ (by intro c hc; injection hc with hc; subst hc; decide)]
          split
          · next r5 heq3 =>
              simp only [List.cons.injEq, true_and] at heq3
              simp [heq3]
          · next r5 heq3 =>
              injection heq3 with h1 _
              exact absurd h1 (by decide)
          · next hne1 hne2 => exact absurd (hne1 r4 rfl) (by simp)
      · next hne => exact absurd (hne r2 rfl) (by simp)
  · next hne => exact absurd (hne r rfl) (by simp)

/-- Entry scanner: a key/value pair followed by a comma continues with
the remaining entries. -/
theorem parseFields_comma (f : Nat) (r : LStr) (k : LStr) (v : Json) (r2 r4 : LStr)
    (fs : List (LStr × Json)) (r5 : LStr)
    (hkey : parseStrBody (r.length + 1) r = some (k, ':' :: r2))
    (hval : parseVal f (skipWs r2) = some (v, ',' :: r4))
    (hrec : parseFields f (skipWs r4) = some (fs, r5)) :
    parseFields (f + 1) ('"' :: r) = some ((k, v) :: fs, r5) := by
  rw [parseFields_cons f]
  split
  · next r' heq =>
      simp only [List.cons.injEq, true_and] at heq
      subst heq
      rw [hkey]
      dsimp only
      rw [skipWs_of_head _ (by intro c hc; injection hc with hc; subst hc; decide)]
      split
      · next r'' heq2 =>
          simp only [List.cons.injEq, true_and] at heq2
          subst heq2
          rw [hval]
          dsimp only
          rw [skipWs_of_head _ (by intro c hc; injection hc with hc; subst hc; decide)]
          split
          · next r6 heq3 =>
              injection heq3 with h1 _
              exact absurd h1 (by decide)
          · next r6 heq3 =>
              simp only [List.cons.injEq, true_and] at heq3
              subst heq3
              rw [hrec]
          · next hne1 hne2 => exact absurd (hne2 r4 rfl) (by simp)
      · next hne => exact absurd (hne r2 rfl) (by simp)
  · next hne => exact absurd (hne r rfl) (by simp)

/-- The printed element list starts with a character that is not
whitespace and not a delimiter. -/
theorem dumpsElems_head (x : Json) (xs : List Json) :
    ∃ c cs, dumpsElems (x :: xs) = c :: cs ∧ isWs c = false ∧
      c ≠ ']' ∧ c ≠ '\x7d' ∧ c ≠ ',' := by
  obtain ⟨c, cs, hcons, hws, _, hbr, hbc, hcm⟩ := dumpsV_head x
  cases xs with
  | nil => exact ⟨c, cs, by rw [dumpsElems, hcons], hws, hbr, hbc, hcm⟩
  | cons y ys =>
    refine ⟨c, cs ++ ',' :: ' ' :: dumpsElems (y :: ys), ?_, hws, hbr, hbc, hcm⟩
    rw [dumpsElems, hcons, List.cons_append]

/-- The printed entry list starts with a quote. -/
theorem dumpsFields_shape (kv : LStr × Json) (fs : List (LStr × Json)) :
    ∃ t, dumpsFields (kv :: fs) = '"' :: t := by
  rcases kv with ⟨k, v⟩
  cases fs with
  | nil => exact ⟨_, by rw [dumpsFields]⟩
  | cons kv' fs' => exact ⟨_, by rw [dumpsFields, List.cons_append]⟩

/-- Round trip of the three scanners over the printers, by strong
induction on the size of the value: the printed form of a well-formed
value (element list, entry list), followed by suitable input, parses
back exactly. -/
theorem parse_dumps_bound : ∀ (N : Nat),
    (∀ (v : Json) (f : Nat) (rest : LStr), sizeOf v < N →
      (dumpsV v).length < f →
      (∀ c, rest.head? = some c → isDigit c = false) → wfJson v = true →
      parseVal f (dumpsV v ++ rest) = some (v, rest)) ∧
    (∀ (x : Json) (xs : List Json) (f : Nat) (rest : LStr), sizeOf (x :: xs) < N →
      (dumpsElems (x :: xs)).length + 1 < f → wfArr (x :: xs) = true →
      parseElems f (dumpsElems (x :: xs) ++ ']' :: rest) = some (x :: xs, rest)) ∧
    (∀ (kv : LStr × Json) (fs : List (LStr × Json)) (f : Nat) (rest : LStr),
      sizeOf (kv :: fs) < N →
      (dumpsFields (kv :: fs)).length + 1 < f → wfFields (kv :: fs) = true →
      parseFields f (dumpsFields (kv :: fs) ++ '\x7d' :: rest) = some (kv :: fs, rest)) := by
  intro N
  induction N with
  | zero => refine ⟨?_, ?_, ?_⟩ <;> (intros; omega)
  | succ N ih =>
    obtain ⟨ihV, ihE, ihF⟩ := ih
    refine ⟨?_, ?_, ?_⟩
    · intro v f rest hsz hf hrest hwf

      obtain ⟨f', rfl⟩ : ∃ f', f = f' + 1 := ⟨f - 1, by omega⟩
      cases v with
      | null =>
        rw [show dumpsV .null = ['n','u','l','l'] from by rw [dumpsV]]
        exact parseVal_null f' rest
      | bool b =>
        cases b with
        | true =>
          rw [show dumpsV (.bool true) = ['t','r','u','e'] from by rw [dumpsV]]
          exact parseVal_true f' rest
        | false =>
          rw [show dumpsV (.bool false) = ['f','a','l','s','e'] from by rw [dumpsV]]
          exact parseVal_false f' rest
      | num i =>
        rw [show dumpsV (.num i) = intChars i from by rw [dumpsV]]
        by_cases hi : i < 0
        · rw [intChars, if_pos hi, List.cons_append, parseVal_neg f',
            parseNumBody_natDigits i.natAbs rest hrest]
          dsimp only
          rw [show (-(i.natAbs : Int)) = i by omega]
        · obtain ⟨d, ds, hcons⟩ : ∃ d ds, natDigits i.natAbs = d :: ds := by
            rcases hx : natDigits i.natAbs with _ | ⟨d, ds⟩
            · exact absurd hx (natDigits_ne_nil _)
            · exact ⟨d, ds, rfl⟩
          have hd : isDigit d = true :=
            natDigits_all_digit _ d (by rw [hcons]; exact List.mem_cons_self _ _)
          rw [intChars, if_neg hi, hcons, List.cons_append, parseVal_digit f' d _ hd,
            ← List.cons_append, ← hcons, parseNumBody_natDigits i.natAbs rest hrest]
          dsimp only
          rw [show ((i.natAbs : Nat) : Int) = i by omega]
      | str s =>
        rw [show dumpsV (.str s) = '"' :: (escapeStr s ++ ['"']) from by rw [dumpsV]]
        rw [show ('"' :: (escapeStr s ++ ['"'])) ++ rest =
            '"' :: (escapeStr s ++ '"' :: rest) by simp]
        rw [parseVal_str f']
        rw [parseStrBody_escapeStr s _ rest (by
          have h1 := escapeStr_length_ge s
          simp only [List.length_append, List.length_cons]
          omega)]
      | arr xs =>
        cases xs with
        | nil =>
          rw [show dumpsV (.arr []) = ['[', ']'] from by rw [dumpsV]]
          rw [show (['[', ']'] : LStr) ++ rest = '[' :: ']' :: rest from rfl]
          rw [parseVal_arr f']
          rw [skipWs_of_head _ (by intro c hc; injection hc with hc; subst hc; decide)]
          rw [if_pos (by rw [List.head?_cons])]
          rfl
        | cons x xs =>
          rw [show dumpsV (.arr (x :: xs)) = '[' :: (dumpsElems (x :: xs) ++ [']'])
              from by rw [dumpsV]]
          rw [show ('[' :: (dumpsElems (x :: xs) ++ [']'])) ++ rest =
              '[' :: (dumpsElems (x :: xs) ++ ']' :: rest) by simp]
          rw [parseVal_arr f']
          obtain ⟨c, cs, hcons, hws, hbr, _, _⟩ := dumpsElems_head x xs
          rw [show skipWs (dumpsElems (x :: xs) ++ ']' :: rest) =
              dumpsElems (x :: xs) ++ ']' :: rest from
            skipWs_of_head _ (by
              rw [hcons, List.cons_append, List.head?_cons]
              intro c' hc'
              injection hc' with hc'
              subst hc'
              exact hws)]
          rw [if_neg (by
            rw [hcons, List.cons_append, List.head?_cons]
            intro hcontra
            injection hcontra with hcontra
            exact hbr hcontra)]
          rw [ihE x xs f' rest (by simp at hsz; simp; omega)
            (by
              rw [show dumpsV (.arr (x :: xs)) = '[' :: (dumpsElems (x :: xs) ++ [']'])
                  from by rw [dumpsV]] at hf
              simp only [List.length_cons, List.length_append, List.length_singleton] at hf
              omega)
            (by rw [show wfJson (.arr (x :: xs)) = wfArr (x :: xs) from by rw [wfJson]] at hwf
                exact hwf)]
      | obj fs =>
        cases fs with
        | nil =>
          rw [show dumpsV (.obj []) = ['\x7b', '\x7d'] from by rw [dumpsV]]
          rw [show (['\x7b', '\x7d'] : LStr) ++ rest = '\x7b' :: '\x7d' :: rest from rfl]
          rw [parseVal_obj f']
          rw [skipWs_of_head _ (by intro c hc; injection hc with hc; subst hc; decide)]
          rw [if_pos (by rw [List.head?_cons])]
          rfl
        | cons kv fs =>
          rw [show dumpsV (.obj (kv :: fs)) = '\x7b' :: (dumpsFields (kv :: fs) ++ ['\x7d'])
              from by rw [dumpsV]]
          rw [show ('\x7b' :: (dumpsFields (kv :: fs) ++ ['\x7d'])) ++ rest =
              '\x7b' :: (dumpsFields (kv :: fs) ++ '\x7d' :: rest) by simp]
          rw [parseVal_obj f']
          obtain ⟨t, hshape⟩ := dumpsFields_shape kv fs
          rw [show skipWs (dumpsFields (kv :: fs) ++ '\x7d' :: rest) =
              dumpsFields (kv :: fs) ++ '\x7d' :: rest from
            skipWs_of_head _ (by
              rw [hshape, List.cons_append, List.head?_cons]
              intro c' hc'
              injection hc' with hc'
              subst hc'
              decide)]
          rw [if_neg (by
            rw [hshape, List.cons_append, List.head?_cons]
            intro hcontra
            injection hcontra with hcontra
            exact absurd hcontra (by decide))]
          have hwf2 : keysNodup ((kv :: fs).map Prod.fst) = true ∧ wfFields (kv :: fs) = true := by
            rw [show wfJson (.obj (kv :: fs)) =
                (keysNodup ((kv :: fs).map Prod.fst) && wfFields (kv :: fs))
                from by rw [wfJson]] at hwf
            rw [Bool.and_eq_true] at hwf
            exact hwf
          rw [ihF kv fs f' rest (by simp at hsz; simp; omega)
            (by
              rw [show dumpsV (.obj (kv :: fs)) = '\x7b' :: (dumpsFields (kv :: fs) ++ ['\x7d'])
                  from by rw [dumpsV]] at hf
              simp only [List.length_cons, List.length_append, List.length_singleton] at hf
              omega)
            hwf2.2]
          dsimp only
          rw [dictify_nodup (kv :: fs) hwf2.1]
    · intro x xs f rest hsz hf hwf

      obtain ⟨f', rfl⟩ : ∃ f', f = f' + 1 := ⟨f - 1, by omega⟩
      have hwfx : wfJson x = true ∧ wfArr xs = true := by
        rw [show wfArr (x :: xs) = (wfJson x && wfArr xs) from by rw [wfArr]] at hwf
        rw [Bool.and_eq_true] at hwf
        exact hwf
      cases xs with
      | nil =>
        rw [show dumpsElems [x] = dumpsV x from by rw [dumpsElems]]
        exact parseElems_close f' _ x rest
          (ihV x f' (']' :: rest) (by simp at hsz; omega)
            (by rw [show dumpsElems [x] = dumpsV x from by rw [dumpsElems]] at hf; omega)
            (by intro c hc; injection hc with hc; subst hc; decide)
            hwfx.1)
      | cons y ys =>
        rw [show dumpsElems (x :: y :: ys) = dumpsV x ++ ',' :: ' ' :: dumpsElems (y :: ys)
            from by rw [dumpsElems]]
        have hlen : (dumpsV x).length + 2 + (dumpsElems (y :: ys)).length + 1 < f' + 1 := by
          rw [show dumpsElems (x :: y :: ys) = dumpsV x ++ ',' :: ' ' :: dumpsElems (y :: ys)
              from by rw [dumpsElems]] at hf
          simp only [List.length_append, List.length_cons] at hf
          omega
        have hx1 : 1 ≤ (dumpsV x).length := by
          rcases hc : dumpsV x with _ | ⟨c, cs⟩
          · exact absurd hc (dumpsV_ne_nil x)
          · rw [List.length_cons]; omega
        refine parseElems_comma f' _ x (' ' :: (dumpsElems (y :: ys) ++ ']' :: rest)) (y :: ys)
          rest ?hv ?hr
        case hv =>
          rw [show dumpsV x ++ ',' :: ' ' :: dumpsElems (y :: ys) ++ ']' :: rest =
              dumpsV x ++ ',' :: (' ' :: (dumpsElems (y :: ys) ++ ']' :: rest)) by simp]
          exact ihV x f' _ (by simp at hsz; omega) (by omega)
            (by intro c hc; injection hc with hc; subst hc; decide) hwfx.1
        case hr =>
          rw [skipWs_space]
          obtain ⟨c, cs, hcons, hws, _, _, _⟩ := dumpsElems_head y ys
          rw [show skipWs (dumpsElems (y :: ys) ++ ']' :: rest) =
              dumpsElems (y :: ys) ++ ']' :: rest from
            skipWs_of_head _ (by
              rw [hcons, List.cons_append, List.head?_cons]
              intro c' hc'
              injection hc' with hc'
              subst hc'
              exact hws)]
          exact ihE y ys f' rest (by simp at hsz; simp; omega) (by omega) hwfx.2
    · intro kv fs f rest hsz hf hwf

      obtain ⟨f', rfl⟩ : ∃ f', f = f' + 1 := ⟨f - 1, by omega⟩
      rcases kv with ⟨k, v⟩
      have hwfv : wfJson v = true ∧ wfFields fs = true := by
        rw [show wfFields ((k, v) :: fs) = (wfJson v && wfFields fs) from by rw [wfFields]] at hwf
        rw [Bool.and_eq_true] at hwf
        exact hwf
      have hesc := escapeStr_length_ge k
      cases fs with
      | nil =>
        rw [show dumpsFields [(k, v)] = '"' :: (escapeStr k ++ '"' :: ':' :: ' ' :: dumpsV v)
            from by rw [dumpsFields]]
        have hlen : 1 + ((escapeStr k).length + 3 + (dumpsV v).length) + 1 < f' + 1 := by
          rw [show dumpsFields [(k, v)] = '"' :: (escapeStr k ++ '"' :: ':' :: ' ' :: dumpsV v)
              from by rw [dumpsFields]] at hf
          simp only [List.length_cons, List.length_append] at hf
          omega
        rw [show ('"' :: (escapeStr k ++ '"' :: ':' :: ' ' :: dumpsV v)) ++ '\x7d' :: rest =
            '"' :: (escapeStr k ++ '"' :: (':' :: ' ' :: (dumpsV v ++ '\x7d' :: rest))) by simp]
        refine parseFields_close f' _ k v (' ' :: (dumpsV v ++ '\x7d' :: rest)) rest ?hk ?hv
        case hk =>
          refine parseStrBody_escapeStr k _ _ ?_
          simp only [List.length_append, List.length_cons]
          omega
        case hv =>
          rw [skipWs_space]
          obtain ⟨c, cs, hcons, hws, _, _, _, _⟩ := dumpsV_head v
          rw [show skipWs (dumpsV v ++ '\x7d' :: rest) = dumpsV v ++ '\x7d' :: rest from
            skipWs_of_head _ (by
              rw [hcons, List.cons_append, List.head?_cons]
              intro c' hc'
              injection hc' with hc'
              subst hc'
              exact hws)]
          exact ihV v f' _ (by simp at hsz; omega) (by omega)
            (by intro c' hc'; injection hc' with hc'; subst hc'; decide) hwfv.1
      | cons kv' fs' =>
        rw [show dumpsFields ((k, v) :: kv' :: fs') =
            ('"' :: (escapeStr k ++ '"' :: ':' :: ' ' :: dumpsV v)) ++
              ',' :: ' ' :: dumpsFields (kv' :: fs') from by rw [dumpsFields]]
        have hlen : 1 + ((escapeStr k).length + 3 + (dumpsV v).length) + 2 +
            (dumpsFields (kv' :: fs')).length + 1 < f' + 1 := by
          rw [show dumpsFields ((k, v) :: kv' :: fs') =
              ('"' :: (escapeStr k ++ '"' :: ':' :: ' ' :: dumpsV v)) ++
                ',' :: ' ' :: dumpsFields (kv' :: fs') from by rw [dumpsFields]] at hf
          simp only [List.length_cons, List.length_append] at hf
          omega
        rw [show (('"' :: (escapeStr k ++ '"' :: ':' :: ' ' :: dumpsV v)) ++
            ',' :: ' ' :: dumpsFields (kv' :: fs')) ++ '\x7d' :: rest =
            '"' :: (escapeStr k ++ '"' :: (':' :: ' ' ::
              (dumpsV v ++ ',' :: (' ' :: (dumpsFields (kv' :: fs') ++ '\x7d' :: rest))))) by
          simp]
        refine parseFields_comma f' _ k v
          (' ' :: (dumpsV v ++ ',' :: (' ' :: (dumpsFields (kv' :: fs') ++ '\x7d' :: rest))))
          (' ' :: (dumpsFields (kv' :: fs') ++ '\x7d' :: rest)) (kv' :: fs') rest ?hk ?hv ?hr
        case hk =>
          refine parseStrBody_escapeStr k _ _ ?_
          simp only [List.length_append, List.length_cons]
          omega
        case hv =>
          rw [skipWs_space]
          obtain ⟨c, cs, hcons, hws, _, _, _, _⟩ := dumpsV_head v
          rw [show skipWs (dumpsV v ++ ',' :: (' ' :: (dumpsFields (kv' :: fs') ++ '\x7d' :: rest))) =
              dumpsV v ++ ',' :: (' ' :: (dumpsFields (kv' :: fs') ++ '\x7d' :: rest)) from
            skipWs_of_head _ (by
              rw [hcons, List.cons_append, List.head?_cons]
              intro c' hc'
              injection hc' with hc'
              subst hc'
              exact hws)]
          exact ihV v f' _ (by simp at hsz; omega) (by omega)
            (by intro c' hc'; injection hc' with hc'; subst hc'; decide) hwfv.1
        case hr =>
          rw [skipWs_space]
          obtain ⟨t, hshape⟩ := dumpsFields_shape kv' fs'
          rw [show skipWs (dumpsFields (kv' :: fs') ++ '\x7d' :: rest) =
              dumpsFields (kv' :: fs') ++ '\x7d' :: rest from
            skipWs_of_head _ (by
              rw [hshape, List.cons_append, List.head?_cons]
              intro c' hc'
              injection hc' with hc'
              subst hc'
              decide)]
          exact ihF kv' fs' f' rest (by simp at hsz; simp; omega) (by omega) hwfv.2

/-- Round trip of the value scanner over the printer. -/
theorem parse_dumpsV (v : Json) (f : Nat) (rest : LStr)
    (hf : (dumpsV v).length < f)
    (hrest : ∀ c, rest.head? = some c → isDigit c = false)
    (hwf : wfJson v = true) :
    parseVal f (dumpsV v ++ rest) = some (v, rest) :=
  (parse_dumps_bound (sizeOf v + 1)).1 v f rest (by omega) hf hrest hwf

/-! ### Claim C8: save/load round trip -/

/-- The printed form has no leading JSON whitespace to skip. -/
theorem skipWs_dumpsV (v : Json) : skipWs (dumpsV v) = dumpsV v := by
  obtain ⟨c, cs, hcons, hws, -, -, -, -⟩ := dumpsV_head v
  rw [hcons, skipWs, if_neg (by simp [hws])]

/-- `json.loads` recovers a well-formed value from its `json.dumps`
rendering. -/
theorem jsonLoads_dumpsV (v : Json) (hwf : wfJson v = true) :
    jsonLoads (dumpsV v) = some v := by
  unfold jsonLoads
  rw [skipWs_dumpsV]
  have h := parse_dumpsV v ((dumpsV v).length + 1) [] (by omega)
    (by intro c hc; simp at hc) hwf
  rw [List.append_nil] at h
  rw [h]
  simp [skipWs]

/-- A list whose last element fails the predicate is unchanged by
`rdropWhile`. -/
theorem rdropWhile_eq_self_of_last (p : Char → Bool) (l : List Char)
    (h : ∀ c, l.getLast? = some c → p c = false) : l.rdropWhile p = l := by
  rw [List.rdropWhile_eq_self_iff]
  intro hl hp
  rw [h (l.getLast hl) (List.getLast?_eq_getLast l hl)] at hp
  exact absurd hp (by decide)

/-- `str.strip()` applied to a saved NDJSON line recovers exactly the
`json.dumps` text: the trailing newline is removed and nothing else. -/
theorem stripLine_saveLine (e : Json) : stripLine (saveLine e) = dumpsV e := by
  obtain ⟨c, cs, hcons, -, hpws, -, -, -⟩ := dumpsV_head e
  unfold stripLine saveLine
  rw [hcons, List.cons_append, List.dropWhile_cons, if_neg (by simp [hpws]),
    ← List.cons_append, ← hcons, List.rdropWhile_concat, if_pos (by decide)]
  exact rdropWhile_eq_self_of_last _ _ (dumpsV_last e)

/-- C8 (confirmed): an Event Record (a Python-representable JSON value,
i.e. one whose object levels all have distinct keys), serialized to one
NDJSON line by `Logger._save_event` (logger.py 97-120) and reloaded by
`EventReplayer._load_events` (replay.py 94-125), yields the identical
value back, with no skip warning. -/
theorem claim8_roundtrip (e : Json) (hwf : wfJson e = true) :
    loadEvents [saveLine e] = ([e], 0) := by
  rw [loadEvents, stripLine_saveLine, if_neg (dumpsV_ne_nil e),
    jsonLoads_dumpsV e hwf]
  rfl

/-- C8 witness: the round trip at the concrete record `\x7b"a": 1\x7d`. -/
theorem claim8_roundtrip_witness :
    wfJson (Json.obj [(['a'], Json.num 1)]) = true ∧
      loadEvents [saveLine (Json.obj [(['a'], Json.num 1)])] =
        ([Json.obj [(['a'], Json.num 1)]], 0) :=
  ⟨by rw [wfJson, wfFields, wfJson]; rfl,
   claim8_roundtrip (Json.obj [(['a'], Json.num 1)])
     (by rw [wfJson, wfFields, wfJson]; rfl)⟩

/-! ### Claim C3: population of the `json` and `raw` Event Record fields -/

/-- Decoding a non-empty byte string, when it succeeds, yields a
non-empty text: every branch of the decoder prepends a character. -/
theorem utf8Decode_cons_ne_nil (b : Nat) (r : List Nat) (s : LStr)
    (h : utf8Decode (b :: r) = some s) : s ≠ [] := by
  rw [utf8Decode, List.length_cons, utf8DecodeGo] at h
  repeat' split at h
  all_goals
    first
    | (injection h with h; subst h; exact List.cons_ne_nil _ _)
    | exact absurd h (by simp)
    | simp

/-- Base64 of a non-empty byte string is a non-empty text. -/
theorem base64Encode_cons_ne_nil (b : Nat) (r : List Nat) :
    base64Encode (b :: r) ≠ [] := by
  match r with
  | [] => simp [base64Encode]
  | [b2] => simp [base64Encode]
  | b2 :: b3 :: t => simp [base64Encode]

/-- C3 counterexample: for the one-byte body `b"1"` the inbound
listener `catch_all` (server.py 59-72) populates BOTH fields of the
Event Record: `json` holds the parsed value `1` and `raw` holds the
decoded text `"1"`, because `catch_all` computes the two fields
independently and never leaves `raw` empty on a successful JSON parse.
This refutes "exactly one of `json`/`raw` is meaningfully populated"
and "`raw` is populated only when `json` is absent". -/
theorem claim3_counterexample :
    (catchAllBodyFields [49]).json = some (Json.num 1) ∧
      (catchAllBodyFields [49]).raw = ['1'] := by
  have hu : utf8Decode [49] = some ['1'] := rfl
  have hl : jsonLoads ['1'] = some (Json.num 1) := by
    have hd : dumpsV (Json.num 1) = ['1'] := by rw [dumpsV]; rfl
    have h := jsonLoads_dumpsV (Json.num 1) (by rw [wfJson])
    rwa [hd] at h
  constructor
  · show safe_parse_json [49] = some (Json.num 1)
    rw [safe_parse_json, if_neg (by simp), hu]
    exact hl
  · show safe_decode_body [49] = ['1']
    rw [safe_decode_body, if_neg (by simp), if_neg (by decide), hu]

/-- C3 amended: both fields of the Event Record are empty exactly when
the request has no body; for every non-empty body `raw` is populated
(with the decoded text, a size placeholder, or a base64 rendering)
regardless of whether `json` parsed, so `raw` is not a fallback used
only when `json` is absent. -/
theorem claim3_amended (body : List Nat) :
    (body = [] → (catchAllBodyFields body).json = none ∧
      (catchAllBodyFields body).raw = []) ∧
    (body ≠ [] → (catchAllBodyFields body).raw ≠ []) := by
  constructor
  · rintro rfl
    exact ⟨rfl, rfl⟩
  · intro hb
    obtain ⟨b, r, rfl⟩ : ∃ b r, body = b :: r := by
      cases body with
      | nil => exact absurd rfl hb
      | cons b r => exact ⟨b, r, rfl⟩
    show safe_decode_body (b :: r) ≠ []
    rw [safe_decode_body, if_neg hb]
    split
    · exact List.cons_ne_nil _ _
    · split
      next s hs => exact utf8Decode_cons_ne_nil b r s hs
      next hs =>
        split
        · exact List.cons_ne_nil _ _
        · exact base64Encode_cons_ne_nil b r

/-- C3 amended witness: the empty body yields two empty fields, and the
non-empty body `b"h"` yields a populated `raw`. -/
theorem claim3_amended_witness :
    (catchAllBodyFields []).json = none ∧ (catchAllBodyFields []).raw = [] ∧
      (catchAllBodyFields [104]).raw ≠ [] :=
  ⟨((claim3_amended []).1 rfl).1, ((claim3_amended []).1 rfl).2,
   (claim3_amended [104]).2 (by simp)⟩
end Fasthook
